import Mathlib

set_option maxRecDepth 20000
set_option maxHeartbeats 1000000

namespace WalletSpec

/-- Go strings are modelled as lists of characters, so that the byte-level
splitting and joining of the serialization codec can be reasoned about. -/
abbrev Str := List Char

/-- Models types.Money, a Go int64 count of minor currency units, as an
integer. Go arithmetic on int64 wraps on overflow; the operation
variants suffixed with W below apply wrap64 at every arithmetic step
and are the int64-faithful semantics, used by the claims on which
overflow bears. The plain variants compute exactly. -/
abbrev Money := Int

/-- Models types.PaymentStatusInProgress. -/
def statusInProgress : Str := ['I','N','P','R','O','G','R','E','S','S']

/-- Models types.PaymentStatusFail. -/
def statusFail : Str := ['F','A','I','L']

/-- Models types.PaymentStatusOk. -/
def statusOkVal : Str := ['O','K']

/-- Decimal digit character, as produced by fmt.Sprint for integers. -/
def digitChar (n : Nat) : Char := Char.ofNat (48 + n)

/-- Fuel-bounded digit expansion; the fuel is always sufficient when it
exceeds the number, and keeps the recursion structural. -/
def natToStrAux (fuel : Nat) (n : Nat) : Str :=
  match fuel with
  | 0 => []
  | f + 1 => if n < 10 then [digitChar n]
      else natToStrAux f (n / 10) ++ [digitChar (n % 10)]

/-- Decimal representation of a natural number, as fmt.Sprint prints it. -/
def natToStr (n : Nat) : Str := natToStrAux (n + 1) n

/-- Decimal representation of an integer, as fmt.Sprint prints Go int64. -/
def intToStr (n : Int) : Str :=
  if n < 0 then '-' :: natToStr n.natAbs else natToStr n.toNat

/-- Whether a character is a decimal digit. -/
def isDigit (c : Char) : Bool := 48 ≤ c.toNat && c.toNat ≤ 57

/-- Value of a string of decimal digits. -/
def digitsVal (l : Str) : Nat := l.foldl (fun a c => 10 * a + (c.toNat - 48)) 0

/-- Value of a numeral as used by the import paths: the code discards the
error of strconv.Atoi, so a syntactically invalid numeral yields 0,
the zero value Atoi returns alongside its error. This variant returns
the exact value of an arbitrarily long numeral; goAtoiW below adds the
int64 clamping Atoi performs on a range error, whose clamped value the
code keeps. -/
def goAtoi (s : Str) : Int :=
  match s with
  | [] => 0
  | c :: rest =>
    if c = '-' then
      if rest.isEmpty then 0
      else if rest.all isDigit then -(digitsVal rest : Int) else 0
    else if c = '+' then
      if rest.isEmpty then 0
      else if rest.all isDigit then (digitsVal rest : Int) else 0
    else if (c :: rest).all isDigit then (digitsVal (c :: rest) : Int) else 0

/-- Models strings.Split with a one-character separator. -/
def splitCh (c : Char) : Str → List Str
  | [] => [[]]
  | x :: xs =>
    if x = c then [] :: splitCh c xs
    else
      match splitCh c xs with
      | [] => [[x]]
      | f :: rest => (x :: f) :: rest

/-- Newline-joined encoding of a collection, one encoded record per line,
each followed by a newline, as Export builds its dump files. -/
def encodeAll (f : α → Str) : List α → Str
  | [] => []
  | x :: xs => f x ++ '\n' :: encodeAll f xs

/-- Applies f to the first element satisfying p, models a mutation through
the pointer returned by a find-first loop. -/
def updateFirst (p : α → Bool) (f : α → α) : List α → List α
  | [] => []
  | x :: xs => if p x then f x :: xs else x :: updateFirst p f xs

/-- Last element satisfying p: the Go loops in Deposit and Pay overwrite
their local pointer on every match, so the last match wins. -/
def goFindLast (p : α → Bool) (l : List α) : Option α := l.reverse.find? p

/-- Applies f to the last element satisfying p, models a mutation through
the pointer left by a scan-to-the-end loop. -/
def updateLast (p : α → Bool) (f : α → α) (l : List α) : List α :=
  (updateFirst p f l.reverse).reverse

/-- Models types.Account. -/
structure Account where
  id : Int
  phone : Str
  balance : Money
deriving DecidableEq

/-- Models types.Payment. -/
structure Payment where
  id : Str
  accountID : Int
  amount : Money
  category : Str
  status : Str
deriving DecidableEq

/-- Models types.Favorite. -/
structure Favorite where
  id : Str
  accountID : Int
  name : Str
  amount : Money
  category : Str
deriving DecidableEq

/-- The sentinel error values of package wallet. -/
inductive Err where
  | phoneRegistered
  | favoriteRegistered
  | amountMustBePositive
  | accountNotFound
  | notEnoughBalance
  | paymentNotFound
  | favoriteNotFound
  | minRecords
deriving DecidableEq

/-- Models wallet.Service. Go distinguishes a nil slice from an empty one
and Import branches on that distinction, so each collection is an
Option of a list, none standing for the nil slice. The nextAccountID
counter is a Go int64; the wrap-aware register variant below wraps its
increment. The uuidSeed field models the uuid.New() generator: a
supply of fresh identifiers. -/
structure Service where
  nextAccountID : Int
  accounts : Option (List Account)
  payments : Option (List Payment)
  favorites : Option (List Favorite)
  uuidSeed : Nat
deriving DecidableEq

/-- Reading a possibly nil slice: ranging over nil ranges over nothing. -/
def sl (o : Option (List α)) : List α := o.getD []

/-- The zero value of wallet.Service: counter 0, all three slices nil. -/
def zeroService : Service :=
  { nextAccountID := 0, accounts := none, payments := none, favorites := none,
    uuidSeed := 0 }

/-- Models uuid.New().String(): the n-th identifier drawn from the supply.
Distinct indices give distinct identifiers. -/
def genUUID (n : Nat) : Str := 'u' :: natToStr n

/-- Models Service.RegisterAccount: rejects a duplicate phone, otherwise
increments the counter and appends a zero-balance account. -/
def goRegisterAccount (s : Service) (phone : Str) : Except Err Account × Service :=
  if (sl s.accounts).any (fun a => a.phone == phone) then
    (.error .phoneRegistered, s)
  else
    let a : Account := { id := s.nextAccountID + 1, phone := phone, balance := 0 }
    (.ok a,
      { s with nextAccountID := s.nextAccountID + 1,
               accounts := some (sl s.accounts ++ [a]) })

/-- Models Service.Deposit: positive-amount check, scan keeping the last
matching account, then credit through that pointer. -/
def goDeposit (s : Service) (accountID : Int) (amount : Money) :
    Except Err Unit × Service :=
  if amount ≤ 0 then (.error .amountMustBePositive, s)
  else
    match goFindLast (fun a => a.id == accountID) (sl s.accounts) with
    | none => (.error .accountNotFound, s)
    | some _ =>
      (.ok (),
        { s with accounts := some (updateLast (fun a => a.id == accountID)
            (fun a => { a with balance := a.balance + amount }) (sl s.accounts)) })

/-- Models Service.Pay: positive-amount check, scan keeping the last
matching account, balance check, debit, then append a fresh payment
with status INPROGRESS and a freshly generated identifier. -/
def goPay (s : Service) (accountID : Int) (amount : Money) (category : Str) :
    Except Err Payment × Service :=
  if amount ≤ 0 then (.error .amountMustBePositive, s)
  else
    match goFindLast (fun a => a.id == accountID) (sl s.accounts) with
    | none => (.error .accountNotFound, s)
    | some acc =>
      if acc.balance < amount then (.error .notEnoughBalance, s)
      else
        let p : Payment :=
          { id := genUUID s.uuidSeed, accountID := accountID, amount := amount,
            category := category, status := statusInProgress }
        (.ok p,
          { s with
            accounts := some (updateLast (fun a => a.id == accountID)
              (fun a => { a with balance := a.balance - amount }) (sl s.accounts)),
            payments := some (sl s.payments ++ [p]),
            uuidSeed := s.uuidSeed + 1 })

/-- Models Service.FindPaymentByID: first match wins. -/
def goFindPaymentByID (s : Service) (pid : Str) : Option Payment :=
  (sl s.payments).find? (fun p => p.id == pid)

/-- Models Service.FindAccountByID: first match wins. -/
def goFindAccountByID (s : Service) (aid : Int) : Option Account :=
  (sl s.accounts).find? (fun a => a.id == aid)

/-- Models Service.FindFavoriteByID: first match wins. -/
def goFindFavoriteByID (s : Service) (fid : Str) : Option Favorite :=
  (sl s.favorites).find? (fun f => f.id == fid)

/-- Models Service.Reject: looks up the payment and its account, then
flips the payment status to FAIL and credits the amount back. The
status of the found payment is never checked, so a second call credits
again. -/
def goReject (s : Service) (pid : Str) : Except Err Unit × Service :=
  match goFindPaymentByID s pid with
  | none => (.error .paymentNotFound, s)
  | some p =>
    match goFindAccountByID s p.accountID with
    | none => (.error .accountNotFound, s)
    | some _ =>
      (.ok (),
        { s with
          payments := some (updateFirst (fun q => q.id == pid)
            (fun q => { q with status := statusFail }) (sl s.payments)),
          accounts := some (updateFirst (fun a => a.id == p.accountID)
            (fun a => { a with balance := a.balance + p.amount }) (sl s.accounts)) })

/-- Models Service.Repeat: looks up the payment, then pays again with the
same account, amount and category. -/
def goRepeat (s : Service) (pid : Str) : Except Err Payment × Service :=
  match goFindPaymentByID s pid with
  | none => (.error .paymentNotFound, s)
  | some p => goPay s p.accountID p.amount p.category

/-- Models Service.FavoritePayment: rejects a duplicate name, looks up the
payment, then appends a detached favorite with a fresh identifier. -/
def goFavoritePayment (s : Service) (pid : Str) (name : Str) :
    Except Err Favorite × Service :=
  if (sl s.favorites).any (fun f => f.name == name) then
    (.error .favoriteRegistered, s)
  else
    match goFindPaymentByID s pid with
    | none => (.error .paymentNotFound, s)
    | some p =>
      let fav : Favorite :=
        { id := genUUID s.uuidSeed, accountID := p.accountID, name := name,
          amount := p.amount, category := p.category }
      (.ok fav,
        { s with favorites := some (sl s.favorites ++ [fav]),
                 uuidSeed := s.uuidSeed + 1 })

/-- Models Service.PayFromFavorite: looks up the favorite, then pays from
its stored account, amount and category. -/
def goPayFromFavorite (s : Service) (fid : Str) : Except Err Payment × Service :=
  match goFindFavoriteByID s fid with
  | none => (.error .favoriteNotFound, s)
  | some f => goPay s f.accountID f.amount f.category

/-- Models Account.ToString: semicolon-joined ID, phone, balance. -/
def accountToString (a : Account) : Str :=
  intToStr a.id ++ ';' :: a.phone ++ ';' :: intToStr a.balance

/-- Models Payment.ToString: semicolon-joined ID, account, amount,
category, status. -/
def paymentToString (p : Payment) : Str :=
  p.id ++ ';' :: intToStr p.accountID ++ ';' :: intToStr p.amount ++
    ';' :: p.category ++ ';' :: p.status

/-- Models Favorite.ToString: semicolon-joined ID, account, name, amount,
category. -/
def favoriteToString (f : Favorite) : Str :=
  f.id ++ ';' :: intToStr f.accountID ++ ';' :: f.name ++
    ';' :: intToStr f.amount ++ ';' :: f.category

/-- The economic fields of a favorite: everything except its identifier,
which Import regenerates. -/
def stripFav (f : Favorite) : Int × Str × Money × Str :=
  (f.accountID, f.name, f.amount, f.category)

/-- The directory Export writes into and Import reads from: up to three
dump files, none standing for an absent file. -/
structure Dir where
  accountsDump : Option Str
  paymentsDump : Option Str
  favoritesDump : Option Str
deriving DecidableEq

/-- A directory with no dump files. -/
def emptyDir : Dir :=
  { accountsDump := none, paymentsDump := none, favoritesDump := none }

/-- Models the read closure of Import: a missing file reads as empty. -/
def readDump (o : Option Str) : Str := o.getD []

/-- Models Service.Export: writes one dump file per non-empty collection,
overwriting the previous contents; empty collections leave the
directory entry alone. -/
def goExport (s : Service) (d : Dir) : Dir :=
  let d1 := if (sl s.accounts).length > 0 then
      { d with accountsDump := some (encodeAll accountToString (sl s.accounts)) }
    else d
  let d2 := if (sl s.favorites).length > 0 then
      { d1 with favoritesDump := some (encodeAll favoriteToString (sl s.favorites)) }
    else d1
  if (sl s.payments).length > 0 then
    { d2 with paymentsDump := some (encodeAll paymentToString (sl s.payments)) }
  else d2

/-- Processing of one line of accounts.dump by Import. Lines with fewer
than 2 semicolon fields are skipped. A line with exactly 2 fields makes
the Go code read index 2 out of range, a panic, modelled as none.
Otherwise: merge in place on an existing ID, or append and set the
next-ID counter to the imported ID. -/
def importAccLine (s : Service) (line : Str) : Option Service :=
  match splitCh ';' line with
  | f0 :: f1 :: rest =>
    match rest with
    | [] => none
    | f2 :: _ =>
      let ID := goAtoi f0
      let ph := f1
      let bal := goAtoi f2
      match (sl s.accounts).find? (fun a => a.id == ID) with
      | some _ =>
        some { s with accounts := some (updateFirst (fun a => a.id == ID)
            (fun a => { a with phone := ph, balance := bal }) (sl s.accounts)) }
      | none =>
        some { s with
          accounts := some (sl s.accounts ++ [{ id := ID, phone := ph, balance := bal }]),
          nextAccountID := ID }
  | _ => some s

/-- Processing of one line of payments.dump by Import: skip under 2
fields, panic (none) under 5, else merge in place or append with the
identifier read from the file. -/
def importPayLine (s : Service) (line : Str) : Option Service :=
  match splitCh ';' line with
  | f0 :: f1 :: rest =>
    match rest with
    | f2 :: f3 :: f4 :: _ =>
      let pid := f0
      let aID := goAtoi f1
      let amt := goAtoi f2
      match (sl s.payments).find? (fun p => p.id == pid) with
      | some _ =>
        some { s with payments := some (updateFirst (fun p => p.id == pid)
            (fun p => { p with accountID := aID, amount := amt,
                               category := f3, status := f4 }) (sl s.payments)) }
      | none =>
        some { s with payments := some (sl s.payments ++
          [{ id := pid, accountID := aID, amount := amt, category := f3, status := f4 }]) }
    | _ => none
  | _ => some s

/-- Processing of one line of favorites.dump by Import: skip under 2
fields, panic (none) under 5, else merge in place or append under a
freshly generated identifier in place of the one read from disk. -/
def importFavLine (s : Service) (line : Str) : Option Service :=
  match splitCh ';' line with
  | f0 :: f1 :: rest =>
    match rest with
    | f2 :: f3 :: f4 :: _ =>
      let fid := f0
      let aID := goAtoi f1
      let amt := goAtoi f3
      match (sl s.favorites).find? (fun f => f.id == fid) with
      | some _ =>
        some { s with favorites := some (updateFirst (fun f => f.id == fid)
            (fun f => { f with accountID := aID, amount := amt,
                               name := f2, category := f4 }) (sl s.favorites)) }
      | none =>
        some { s with
          favorites := some (sl s.favorites ++
            [{ id := genUUID s.uuidSeed, accountID := aID, name := f2,
               amount := amt, category := f4 }]),
          uuidSeed := s.uuidSeed + 1 }
    | _ => none
  | _ => some s

/-- Runs a per-line processor over a list of lines, propagating a panic. -/
def importLines (f : Service → Str → Option Service) (s : Service) :
    List Str → Option Service
  | [] => some s
  | l :: ls =>
    match f s l with
    | none => none
    | some s1 => importLines f s1 ls

/-- Models Service.Import: each of the three collections is processed only
when its slice is non-nil; a missing file reads as empty; the method
itself never returns an error, but line processing can panic. -/
def goImport (s : Service) (d : Dir) : Option Service :=
  let p1 : Option Service :=
    match s.accounts with
    | none => some s
    | some _ => importLines importAccLine s (splitCh '\n' (readDump d.accountsDump))
  match p1 with
  | none => none
  | some s1 =>
    let p2 : Option Service :=
      match s1.payments with
      | none => some s1
      | some _ => importLines importPayLine s1 (splitCh '\n' (readDump d.paymentsDump))
    match p2 with
    | none => none
    | some s2 =>
      match s2.favorites with
      | none => some s2
      | some _ => importLines importFavLine s2 (splitCh '\n' (readDump d.favoritesDump))

/-- Models Service.ExportToFile: the pipe-joined account encoding the
method writes, each record followed by a pipe. -/
def goExportToFile (s : Service) : Str :=
  (sl s.accounts).foldl (fun acc a => acc ++ accountToString a ++ ['|']) []

/-- Processing of one pipe-separated piece by ImportFromFile: skip under
2 fields; register the phone (an error there is returned with the
state mutated so far); then the Go code reads field index 2, a panic
(none) when only 2 fields are present; then deposit the parsed
balance, returning any deposit error. -/
def iffPiece (s : Service) (piece : Str) : Option (Option Err × Service) :=
  match splitCh ';' piece with
  | _ :: f1 :: rest =>
    match goRegisterAccount s f1 with
    | (.error e, s1) => some (some e, s1)
    | (.ok acc, s1) =>
      match rest with
      | [] => none
      | f2 :: _ =>
        match goDeposit s1 acc.id (goAtoi f2) with
        | (.error e, s2) => some (some e, s2)
        | (.ok _, s2) => some (none, s2)
  | _ => some (none, s)

/-- Folds ImportFromFile piece processing: the first returned error stops
the loop and is returned together with the state mutated so far. -/
def iffPieces (s : Service) : List Str → Option (Option Err × Service)
  | [] => some (none, s)
  | p :: ps =>
    match iffPiece s p with
    | none => none
    | some (some e, s1) => some (some e, s1)
    | some (none, s1) => iffPieces s1 ps

/-- Models Service.ImportFromFile on given file contents: splits on pipes
and registers-and-deposits each well-formed piece, stopping at the
first error, which is returned alongside the partially mutated state. -/
def goImportFromFile (s : Service) (content : Str) : Option (Option Err × Service) :=
  iffPieces s (splitCh '|' content)

/-- The ledger-store operations the spec quantifies traces over. -/
inductive CoreOp where
  | register (phone : Str)
  | deposit (aid : Int) (amount : Money)
  | pay (aid : Int) (amount : Money) (cat : Str)
  | reject (pid : Str)
  | repeatPay (pid : Str)
  | favoritePayment (pid : Str) (name : Str)
  | payFromFavorite (fid : Str)

/-- Applies one ledger-store operation, keeping the error outcome. -/
def applyCore (s : Service) : CoreOp → Option Err × Service
  | .register ph =>
    match goRegisterAccount s ph with
    | (.error e, s') => (some e, s')
    | (.ok _, s') => (none, s')
  | .deposit aid amount =>
    match goDeposit s aid amount with
    | (.error e, s') => (some e, s')
    | (.ok _, s') => (none, s')
  | .pay aid amount cat =>
    match goPay s aid amount cat with
    | (.error e, s') => (some e, s')
    | (.ok _, s') => (none, s')
  | .reject pid =>
    match goReject s pid with
    | (.error e, s') => (some e, s')
    | (.ok _, s') => (none, s')
  | .repeatPay pid =>
    match goRepeat s pid with
    | (.error e, s') => (some e, s')
    | (.ok _, s') => (none, s')
  | .favoritePayment pid name =>
    match goFavoritePayment s pid name with
    | (.error e, s') => (some e, s')
    | (.ok _, s') => (none, s')
  | .payFromFavorite fid =>
    match goPayFromFavorite s fid with
    | (.error e, s') => (some e, s')
    | (.ok _, s') => (none, s')

/-- The state after one ledger-store operation. -/
def coreStep (s : Service) (op : CoreOp) : Service := (applyCore s op).2

/-- The amount successfully deposited by one operation: the deposit amount
on a successful Deposit, zero otherwise. -/
def depDelta (s : Service) : CoreOp → Money
  | .deposit aid amount =>
    match (goDeposit s aid amount).1 with
    | .ok _ => amount
    | .error _ => 0
  | _ => 0

/-- Runs a sequence of ledger-store operations. -/
def runCore (s : Service) : List CoreOp → Service
  | [] => s
  | op :: ops => runCore (coreStep s op) ops

/-- Total amount successfully deposited along a sequence of operations. -/
def totalDep (s : Service) : List CoreOp → Money
  | [] => 0
  | op :: ops => depDelta s op + totalDep (coreStep s op) ops

/-- Sum of all account balances. -/
def sumBal (s : Service) : Money := ((sl s.accounts).map Account.balance).sum

/-- Sum of the amounts of all payments whose status is INPROGRESS. -/
def sumInProg (s : Service) : Money :=
  ((sl s.payments).map
    (fun p => if p.status = statusInProgress then p.amount else 0)).sum

/-- An operation is guarded when it is not a Reject aimed at a payment
that is no longer INPROGRESS. -/
def safeOp (s : Service) : CoreOp → Bool
  | .reject pid =>
    match goFindPaymentByID s pid with
    | some p => p.status == statusInProgress
    | none => true
  | _ => true

/-- A trace is guarded when every step of it is. -/
def safeTrace (s : Service) : List CoreOp → Bool
  | [] => true
  | op :: ops => safeOp s op && safeTrace (coreStep s op) ops

/-- One step of the system: any ledger-store operation, or a completed
(non-panicking) ImportFromFile on arbitrary file contents. Import of a
directory is deliberately not included here. -/
inductive StepND : Service → Service → Prop where
  | core (s : Service) (op : CoreOp) : StepND s (coreStep s op)
  | importFile (s : Service) (content : Str) (e : Option Err) (s' : Service) :
      goImportFromFile s content = some (e, s') → StepND s s'

/-- States reachable from the zero-value store by guarded steps. -/
inductive Reach : Service → Prop where
  | init : Reach zeroService
  | step {s s' : Service} : Reach s → StepND s s' → Reach s'

/-- Balance of the account a Deposit or Pay against this ID would touch:
the last account carrying the ID. -/
def balanceOf (s : Service) (aid : Int) : Option Money :=
  (goFindLast (fun a => a.id == aid) (sl s.accounts)).map Account.balance

/-- Status of the payment a Reject against this ID would touch: the first
payment carrying the ID. -/
def statusOf (s : Service) (pid : Str) : Option Str :=
  (goFindPaymentByID s pid).map Payment.status

/-- The largest int64 value. -/
def maxInt64 : Int := 9223372036854775807

/-- The smallest int64 value. -/
def minInt64 : Int := -9223372036854775808

/-- Two-complement wrap-around of Go int64 arithmetic. -/
def wrap64 (x : Int) : Int :=
  (x + 9223372036854775808) % 18446744073709551616 - 9223372036854775808

/-- Whether a value is representable as an int64. -/
def inRange64 (x : Int) : Bool :=
  decide (minInt64 ≤ x) && decide (x ≤ maxInt64)

/-- Models strconv.Atoi faithfully to int64: on a range error Atoi
returns the value clamped to MaxInt64 or MinInt64 together with an
error the import code discards, keeping the clamped value. -/
def goAtoiW (s : Str) : Int :=
  let v := goAtoi s
  if v > maxInt64 then maxInt64
  else if v < minInt64 then minInt64
  else v

/-- Wrap-aware Service.RegisterAccount: the int64 counter increment
wraps, and the account receives the wrapped counter as identifier. -/
def goRegisterAccountW (s : Service) (phone : Str) : Except Err Account × Service :=
  if (sl s.accounts).any (fun a => a.phone == phone) then
    (.error .phoneRegistered, s)
  else
    let c := wrap64 (s.nextAccountID + 1)
    let a : Account := { id := c, phone := phone, balance := 0 }
    (.ok a,
      { s with nextAccountID := c,
               accounts := some (sl s.accounts ++ [a]) })

/-- Wrap-aware Service.Deposit: the int64 credit wraps. -/
def goDepositW (s : Service) (accountID : Int) (amount : Money) :
    Except Err Unit × Service :=
  if amount ≤ 0 then (.error .amountMustBePositive, s)
  else
    match goFindLast (fun a => a.id == accountID) (sl s.accounts) with
    | none => (.error .accountNotFound, s)
    | some _ =>
      (.ok (),
        { s with accounts := some (updateLast (fun a => a.id == accountID)
            (fun a => { a with balance := wrap64 (a.balance + amount) })
            (sl s.accounts)) })

/-- Wrap-aware Service.Pay: the int64 debit wraps. -/
def goPayW (s : Service) (accountID : Int) (amount : Money) (category : Str) :
    Except Err Payment × Service :=
  if amount ≤ 0 then (.error .amountMustBePositive, s)
  else
    match goFindLast (fun a => a.id == accountID) (sl s.accounts) with
    | none => (.error .accountNotFound, s)
    | some acc =>
      if acc.balance < amount then (.error .notEnoughBalance, s)
      else
        let p : Payment :=
          { id := genUUID s.uuidSeed, accountID := accountID, amount := amount,
            category := category, status := statusInProgress }
        (.ok p,
          { s with
            accounts := some (updateLast (fun a => a.id == accountID)
              (fun a => { a with balance := wrap64 (a.balance - amount) })
              (sl s.accounts)),
            payments := some (sl s.payments ++ [p]),
            uuidSeed := s.uuidSeed + 1 })

/-- Wrap-aware Service.Reject: the int64 credit wraps. -/
def goRejectW (s : Service) (pid : Str) : Except Err Unit × Service :=
  match goFindPaymentByID s pid with
  | none => (.error .paymentNotFound, s)
  | some p =>
    match goFindAccountByID s p.accountID with
    | none => (.error .accountNotFound, s)
    | some _ =>
      (.ok (),
        { s with
          payments := some (updateFirst (fun q => q.id == pid)
            (fun q => { q with status := statusFail }) (sl s.payments)),
          accounts := some (updateFirst (fun a => a.id == p.accountID)
            (fun a => { a with balance := wrap64 (a.balance + p.amount) })
            (sl s.accounts)) })

/-- Wrap-aware Service.Repeat: lookup, then the wrap-aware Pay. -/
def goRepeatW (s : Service) (pid : Str) : Except Err Payment × Service :=
  match goFindPaymentByID s pid with
  | none => (.error .paymentNotFound, s)
  | some p => goPayW s p.accountID p.amount p.category

/-- Wrap-aware Service.PayFromFavorite: lookup, then the wrap-aware
Pay. FavoritePayment itself performs no arithmetic and needs no
variant. -/
def goPayFromFavoriteW (s : Service) (fid : Str) : Except Err Payment × Service :=
  match goFindFavoriteByID s fid with
  | none => (.error .favoriteNotFound, s)
  | some f => goPayW s f.accountID f.amount f.category

/-- Whether a Pay with these arguments performs only in-range int64
arithmetic at this state: the debit of the found account must be
representable. -/
def payWrapFree (s : Service) (aid : Int) (m : Money) : Bool :=
  if m ≤ 0 then true
  else
    match goFindLast (fun a => a.id == aid) (sl s.accounts) with
    | none => true
    | some acc =>
      if acc.balance < m then true else inRange64 (acc.balance - m)

/-- Whether one ledger-store operation performs only in-range int64
arithmetic at this state. -/
def wrapFreeOp (s : Service) : CoreOp → Bool
  | .register _ => inRange64 (s.nextAccountID + 1)
  | .deposit aid m =>
    if m ≤ 0 then true
    else
      match goFindLast (fun a => a.id == aid) (sl s.accounts) with
      | none => true
      | some acc => inRange64 (acc.balance + m)
  | .pay aid m _ => payWrapFree s aid m
  | .reject pid =>
    match goFindPaymentByID s pid with
    | none => true
    | some p =>
      match goFindAccountByID s p.accountID with
      | none => true
      | some a => inRange64 (a.balance + p.amount)
  | .repeatPay pid =>
    match goFindPaymentByID s pid with
    | none => true
    | some p => payWrapFree s p.accountID p.amount
  | .favoritePayment _ _ => true
  | .payFromFavorite fid =>
    match goFindFavoriteByID s fid with
    | none => true
    | some f => payWrapFree s f.accountID f.amount

/-- Applies one ledger-store operation under wrap-aware int64
arithmetic, keeping the error outcome. -/
def applyCoreW (s : Service) : CoreOp → Option Err × Service
  | .register ph =>
    match goRegisterAccountW s ph with
    | (.error e, s2) => (some e, s2)
    | (.ok _, s2) => (none, s2)
  | .deposit aid amount =>
    match goDepositW s aid amount with
    | (.error e, s2) => (some e, s2)
    | (.ok _, s2) => (none, s2)
  | .pay aid amount cat =>
    match goPayW s aid amount cat with
    | (.error e, s2) => (some e, s2)
    | (.ok _, s2) => (none, s2)
  | .reject pid =>
    match goRejectW s pid with
    | (.error e, s2) => (some e, s2)
    | (.ok _, s2) => (none, s2)
  | .repeatPay pid =>
    match goRepeatW s pid with
    | (.error e, s2) => (some e, s2)
    | (.ok _, s2) => (none, s2)
  | .favoritePayment pid name =>
    match goFavoritePayment s pid name with
    | (.error e, s2) => (some e, s2)
    | (.ok _, s2) => (none, s2)
  | .payFromFavorite fid =>
    match goPayFromFavoriteW s fid with
    | (.error e, s2) => (some e, s2)
    | (.ok _, s2) => (none, s2)

/-- The state after one wrap-aware ledger-store operation. -/
def coreStepW (s : Service) (op : CoreOp) : Service := (applyCoreW s op).2

/-- The amount successfully deposited by one wrap-aware operation. -/
def depDeltaW (s : Service) : CoreOp → Money
  | .deposit aid amount =>
    match (goDepositW s aid amount).1 with
    | .ok _ => amount
    | .error _ => 0
  | _ => 0

/-- Runs a sequence of wrap-aware ledger-store operations. -/
def runCoreW (s : Service) : List CoreOp → Service
  | [] => s
  | op :: ops => runCoreW (coreStepW s op) ops

/-- Total amount successfully deposited along a wrap-aware run. -/
def totalDepW (s : Service) : List CoreOp → Money
  | [] => 0
  | op :: ops => depDeltaW s op + totalDepW (coreStepW s op) ops

/-- A wrap-aware trace is guarded when no Reject along it targets a
payment that is no longer INPROGRESS. -/
def safeTraceW (s : Service) : List CoreOp → Bool
  | [] => true
  | op :: ops => safeOp s op && safeTraceW (coreStepW s op) ops

/-- A wrap-aware trace is wrap-free when every operation along it
performs only in-range int64 arithmetic. -/
def wrapFreeTrace (s : Service) : List CoreOp → Bool
  | [] => true
  | op :: ops => wrapFreeOp s op && wrapFreeTrace (coreStepW s op) ops

/-- Wrap-aware processing of one ImportFromFile piece: the register and
deposit wrap, and the balance field parses with the int64 clamping of
strconv.Atoi. -/
def iffPieceW (s : Service) (piece : Str) : Option (Option Err × Service) :=
  match splitCh ';' piece with
  | _ :: f1 :: rest =>
    match goRegisterAccountW s f1 with
    | (.error e, s1) => some (some e, s1)
    | (.ok acc, s1) =>
      match rest with
      | [] => none
      | f2 :: _ =>
        match goDepositW s1 acc.id (goAtoiW f2) with
        | (.error e, s2) => some (some e, s2)
        | (.ok _, s2) => some (none, s2)
  | _ => some (none, s)

/-- Folds wrap-aware ImportFromFile piece processing. -/
def iffPiecesW (s : Service) : List Str → Option (Option Err × Service)
  | [] => some (none, s)
  | p :: ps =>
    match iffPieceW s p with
    | none => none
    | some (some e, s1) => some (some e, s1)
    | some (none, s1) => iffPiecesW s1 ps

/-- Wrap-aware Service.ImportFromFile on given file contents. -/
def goImportFromFileW (s : Service) (content : Str) :
    Option (Option Err × Service) :=
  iffPiecesW s (splitCh '|' content)

/-- One wrap-aware step of the system: a ledger-store operation whose
int64 arithmetic stays in range, or a completed ImportFromFile on
arbitrary contents, which deposits clamped parsed amounts into freshly
registered zero-balance accounts and cannot overflow a balance.
Import of a directory is deliberately not included here. -/
inductive StepNDW : Service → Service → Prop where
  | core (s : Service) (op : CoreOp) (h : wrapFreeOp s op = true) :
      StepNDW s (coreStepW s op)
  | importFile (s : Service) (content : Str) (e : Option Err) (s2 : Service) :
      goImportFromFileW s content = some (e, s2) → StepNDW s s2

/-- States reachable from the zero-value store by wrap-aware steps. -/
inductive ReachW : Service → Prop where
  | init : ReachW zeroService
  | step {s s2 : Service} : ReachW s → StepNDW s s2 → ReachW s2



/-- A one-character phone used by concrete scenarios. -/
def phoneP : Str := ['p']

/-- A second one-character phone used by concrete scenarios. -/
def phoneQ : Str := ['q']

/-- A payment category used by concrete scenarios. -/
def catFood : Str := ['f','o','o','d']

/-- The store after registering one account on the zero-value store:
account 1 with phone p and balance 0. -/
def svcReg1 : Service := coreStep zeroService (.register phoneP)

/-- The store after registering one account and depositing 10 on it. -/
def svcBal10 : Service := runCore zeroService [.register phoneP, .deposit 1 10]

/-- A guarded four-operation scenario: register, deposit 10, pay 5,
reject that payment once. -/
def opsGuarded : List CoreOp :=
  [.register phoneP, .deposit 1 10, .pay 1 5 catFood, .reject (genUUID 0)]

/-- The same scenario followed by a second Reject of the same payment. -/
def opsDoubleReject : List CoreOp := opsGuarded ++ [.reject (genUUID 0)]

/-- A dump directory whose accounts file carries a negative balance. -/
def dirNegBal : Dir :=
  { accountsDump := some ['7',';','q',';','-','5','\n'],
    paymentsDump := none, favoritesDump := none }

/-- A dump directory whose accounts file lists ID 5 and then ID 3. -/
def dirTwoIds : Dir :=
  { accountsDump := some ['5',';','x',';','0','\n','3',';','y',';','0','\n'],
    paymentsDump := none, favoritesDump := none }

/-- A two-field record: one semicolon, two fields. -/
def lineTwoFields : Str := ['a',';','b']

/-- A dump directory whose accounts file is a single two-field line. -/
def dirTwoFields : Dir :=
  { accountsDump := some lineTwoFields, paymentsDump := none, favoritesDump := none }

/-- File contents for ImportFromFile whose single record has a fresh
phone but an unparsable balance field. -/
def contentBadBalance : Str := ['a',';','q',';','x']

/-- A populated store with one account, one payment and one favorite,
used by the round-trip scenarios. -/
def svcRoundTrip : Service :=
  { nextAccountID := 1,
    accounts := some [{ id := 1, phone := phoneP, balance := 5 }],
    payments := some [{ id := ['x'], accountID := 1, amount := 5,
                        category := catFood, status := statusInProgress }],
    favorites := some [{ id := ['f','1'], accountID := 1, name := ['n','m'],
                         amount := 5, category := catFood }],
    uuidSeed := 0 }

/-- The zero-value store after registering phone q: what ImportFromFile
leaves behind when its first record registers and then fails. -/
def svcRegQ : Service := (goRegisterAccount zeroService phoneQ).2

/-- A store with one account whose balance is the largest int64 value. -/
def svcMaxBal : Service :=
  { nextAccountID := 1,
    accounts := some [{ id := 1, phone := phoneP, balance := maxInt64 }],
    payments := some [],
    favorites := none,
    uuidSeed := 0 }

/-- A store with one funded account and one favorite aimed at it. -/
def svcWithFav : Service :=
  { nextAccountID := 1,
    accounts := some [{ id := 1, phone := phoneP, balance := 10 }],
    payments := some [],
    favorites := some [{ id := ['f'], accountID := 1, name := ['n'],
                         amount := 4, category := catFood }],
    uuidSeed := 0 }

/-- A fresh store whose three collections are initialized but empty,
unlike the zero value whose slices are nil. -/
def freshSvc : Service :=
  { nextAccountID := 0, accounts := some [], payments := some [],
    favorites := some [], uuidSeed := 0 }

theorem natToStrAux_fuel_irrel : ∀ f1 : Nat, ∀ f2 n : Nat, n < f1 → n < f2 →
    natToStrAux f1 n = natToStrAux f2 n := by
  intro f1
  induction f1 with
  | zero =>
    intro f2 n h1 h2
    omega
  | succ f ih =>
    intro f2 n h1 h2
    cases f2 with
    | zero => omega
    | succ g =>
      show (if n < 10 then [digitChar n]
          else natToStrAux f (n / 10) ++ [digitChar (n % 10)]) =
        (if n < 10 then [digitChar n]
          else natToStrAux g (n / 10) ++ [digitChar (n % 10)])
      by_cases hn : n < 10
      · rw [if_pos hn, if_pos hn]
      · rw [if_neg hn, if_neg hn, ih g (n / 10) (by omega) (by omega)]

theorem natToStr_unfold (n : Nat) :
    natToStr n = if n < 10 then [digitChar n]
      else natToStr (n / 10) ++ [digitChar (n % 10)] := by
  show natToStrAux (n + 1) n = _
  by_cases hn : n < 10
  · simp [natToStrAux, hn]
  · rw [show natToStrAux (n + 1) n
        = natToStrAux n (n / 10) ++ [digitChar (n % 10)] from by
      simp [natToStrAux, hn]]
    rw [if_neg hn]
    rw [natToStrAux_fuel_irrel n (n / 10 + 1) (n / 10) (by omega) (by omega)]
    rfl

theorem sl_some (l : List α) : sl (some l) = l := rfl

theorem updateFirst_cons_pos {p : α → Bool} {f : α → α} {x : α} {xs : List α}
    (h : p x = true) : updateFirst p f (x :: xs) = f x :: xs := by
  simp [updateFirst, h]

theorem updateFirst_cons_neg {p : α → Bool} {f : α → α} {x : α} {xs : List α}
    (h : p x = false) : updateFirst p f (x :: xs) = x :: updateFirst p f xs := by
  simp [updateFirst, h]

theorem updateFirst_of_find_none {p : α → Bool} {f : α → α} {l : List α}
    (h : l.find? p = none) : updateFirst p f l = l := by
  induction l with
  | nil => rfl
  | cons x xs ih =>
    cases hx : p x with
    | true => rw [List.find?_cons_of_pos _ hx] at h; exact absurd h (by simp)
    | false =>
      rw [List.find?_cons_of_neg _ (by simp [hx])] at h
      rw [updateFirst_cons_neg hx, ih h]

theorem sum_map_updateFirst (g : α → Int) {p : α → Bool} (f : α → α) {l : List α}
    {a : α} (h : l.find? p = some a) :
    ((updateFirst p f l).map g).sum = (l.map g).sum - g a + g (f a) := by
  induction l with
  | nil => simp [List.find?_nil] at h
  | cons x xs ih =>
    cases hx : p x with
    | true =>
      rw [List.find?_cons_of_pos _ hx] at h
      obtain rfl : x = a := by simpa using h
      rw [updateFirst_cons_pos hx]
      simp [List.sum_cons]
      ring
    | false =>
      rw [List.find?_cons_of_neg _ (by simp [hx])] at h
      rw [updateFirst_cons_neg hx]
      simp only [List.map_cons, List.sum_cons, ih h]
      ring

theorem mem_updateFirst {p : α → Bool} {f : α → α} {l : List α} {x : α}
    (h : x ∈ updateFirst p f l) :
    x ∈ l ∨ ∃ a, l.find? p = some a ∧ x = f a := by
  induction l with
  | nil => simp [updateFirst] at h
  | cons y ys ih =>
    cases hy : p y with
    | true =>
      rw [updateFirst_cons_pos hy] at h
      rcases List.mem_cons.mp h with h1 | h1
      · exact Or.inr ⟨y, List.find?_cons_of_pos _ hy, h1⟩
      · exact Or.inl (List.mem_cons_of_mem _ h1)
    | false =>
      rw [updateFirst_cons_neg hy] at h
      rcases List.mem_cons.mp h with h1 | h1
      · exact Or.inl (h1 ▸ List.mem_cons_self _ _)
      · rcases ih h1 with h2 | ⟨a, ha, hx⟩
        · exact Or.inl (List.mem_cons_of_mem _ h2)
        · exact Or.inr ⟨a, by rw [List.find?_cons_of_neg _ (by simp [hy])]; exact ha, hx⟩

theorem find?_updateFirst {p : α → Bool} {f : α → α} (l : List α)
    (hp : ∀ a, p (f a) = p a) :
    (updateFirst p f l).find? p = (l.find? p).map f := by
  induction l with
  | nil => rfl
  | cons x xs ih =>
    cases hx : p x with
    | true =>
      rw [updateFirst_cons_pos hx, List.find?_cons_of_pos _ (by rw [hp]; exact hx),
        List.find?_cons_of_pos _ hx]
      rfl
    | false =>
      rw [updateFirst_cons_neg hx, List.find?_cons_of_neg _ (by simp [hx]),
        List.find?_cons_of_neg _ (by simp [hx]), ih]

theorem updateFirst_append_of_find_none {p : α → Bool} {f : α → α}
    {l₁ : List α} (l₂ : List α) (h : l₁.find? p = none) :
    updateFirst p f (l₁ ++ l₂) = l₁ ++ updateFirst p f l₂ := by
  induction l₁ with
  | nil => rfl
  | cons x xs ih =>
    cases hx : p x with
    | true => rw [List.find?_cons_of_pos _ hx] at h; exact absurd h (by simp)
    | false =>
      rw [List.find?_cons_of_neg _ (by simp [hx])] at h
      rw [List.cons_append, updateFirst_cons_neg hx, ih h, List.cons_append]

theorem updateFirst_append_single_neg {p : α → Bool} {f : α → α} {x : α}
    (l : List α) (h : p x = false) :
    updateFirst p f (l ++ [x]) = updateFirst p f l ++ [x] := by
  induction l with
  | nil => simp [updateFirst, h]
  | cons y ys ih =>
    cases hy : p y with
    | true => rw [List.cons_append, updateFirst_cons_pos hy, updateFirst_cons_pos hy,
        List.cons_append]
    | false => rw [List.cons_append, updateFirst_cons_neg hy, updateFirst_cons_neg hy,
        ih, List.cons_append]

theorem updateLast_cons_neg {p : α → Bool} {f : α → α} {x : α} {xs : List α}
    (h : p x = false) : updateLast p f (x :: xs) = x :: updateLast p f xs := by
  unfold updateLast
  rw [List.reverse_cons, updateFirst_append_single_neg _ h, List.reverse_append]
  rfl

theorem goFindLast_cons_neg {p : α → Bool} {x : α} {xs : List α}
    (h : p x = false) : goFindLast p (x :: xs) = goFindLast p xs := by
  unfold goFindLast
  rw [List.reverse_cons, List.find?_append]
  simp [h]

theorem goFindLast_eq_none {p : α → Bool} {l : List α} :
    goFindLast p l = none ↔ ∀ x ∈ l, ¬p x = true := by
  unfold goFindLast
  rw [List.find?_eq_none]
  constructor
  · intro h x hx; exact h x (List.mem_reverse.mpr hx)
  · intro h x hx; exact h x (List.mem_reverse.mp hx)

theorem goFindLast_mem {p : α → Bool} {l : List α} {a : α}
    (h : goFindLast p l = some a) : a ∈ l :=
  List.mem_reverse.mp (List.mem_of_find?_eq_some h)

theorem goFindLast_prop {p : α → Bool} {l : List α} {a : α}
    (h : goFindLast p l = some a) : p a = true :=
  List.find?_some h

theorem sum_map_updateLast (g : α → Int) {p : α → Bool} (f : α → α) {l : List α}
    {a : α} (h : goFindLast p l = some a) :
    ((updateLast p f l).map g).sum = (l.map g).sum - g a + g (f a) := by
  unfold updateLast
  rw [show List.map g (updateFirst p f l.reverse).reverse
        = (List.map g (updateFirst p f l.reverse)).reverse from
      List.map_reverse g _, List.sum_reverse, sum_map_updateFirst g f h,
    ← List.sum_reverse (List.map g l), ← List.map_reverse]

theorem mem_updateLast {p : α → Bool} {f : α → α} {l : List α} {x : α}
    (h : x ∈ updateLast p f l) :
    x ∈ l ∨ ∃ a, goFindLast p l = some a ∧ x = f a := by
  unfold updateLast at h
  rcases mem_updateFirst (List.mem_reverse.mp h) with h1 | h1
  · exact Or.inl (List.mem_reverse.mp h1)
  · exact Or.inr h1

theorem goFindLast_updateLast {p : α → Bool} {f : α → α} (l : List α)
    (hp : ∀ a, p (f a) = p a) :
    goFindLast p (updateLast p f l) = (goFindLast p l).map f := by
  unfold updateLast goFindLast
  rw [List.reverse_reverse, find?_updateFirst _ hp]

theorem digitChar_toNat {d : Nat} (h : d < 10) : (digitChar d).toNat = 48 + d := by
  interval_cases d <;> decide

theorem digitChar_isDigit {d : Nat} (h : d < 10) : isDigit (digitChar d) = true := by
  interval_cases d <;> decide

theorem natToStr_ne_nil (n : Nat) : natToStr n ≠ [] := by
  rw [natToStr_unfold]
  split
  · simp
  · simp

theorem natToStr_all_isDigit (n : Nat) : ∀ c ∈ natToStr n, isDigit c = true := by
  induction n using Nat.strong_induction_on with
  | _ n ih =>
    rw [natToStr_unfold]
    split
    · intro c hc
      rw [List.mem_singleton] at hc
      subst hc
      exact digitChar_isDigit (by omega)
    · intro c hc
      rcases List.mem_append.mp hc with h1 | h1
      · exact ih (n / 10) (Nat.div_lt_self (by omega) (by omega)) c h1
      · rw [List.mem_singleton] at h1
        subst h1
        exact digitChar_isDigit (Nat.mod_lt _ (by omega))

theorem isDigit_toNat {c : Char} (h : isDigit c = true) :
    48 ≤ c.toNat ∧ c.toNat ≤ 57 := by
  unfold isDigit at h
  exact ⟨by simpa using (Bool.and_elim_left h), by simpa using (Bool.and_elim_right h)⟩

theorem digitsVal_append_single (l : Str) (c : Char) :
    digitsVal (l ++ [c]) = 10 * digitsVal l + (c.toNat - 48) := by
  unfold digitsVal
  rw [List.foldl_append]
  rfl

theorem digitsVal_natToStr (n : Nat) : digitsVal (natToStr n) = n := by
  induction n using Nat.strong_induction_on with
  | _ n ih =>
    rw [natToStr_unfold]
    split
    · rename_i h
      show digitsVal ([] ++ [digitChar n]) = n
      rw [digitsVal_append_single, digitChar_toNat h]
      simp [digitsVal]
    · rename_i h
      rw [digitsVal_append_single, ih (n / 10) (Nat.div_lt_self (by omega) (by omega)),
        digitChar_toNat (Nat.mod_lt _ (by omega))]
      omega

theorem goAtoi_natToStr (n : Nat) : goAtoi (natToStr n) = (n : Int) := by
  have hd := natToStr_all_isDigit n
  have hne := natToStr_ne_nil n
  cases hs : natToStr n with
  | nil => exact absurd hs hne
  | cons c rest =>
    have hc : isDigit c = true := by
      refine hd c ?_
      rw [hs]; exact List.mem_cons_self _ _
    have hct := isDigit_toNat hc
    have hcm : c ≠ '-' := by
      intro h
      subst h
      revert hct
      decide
    have hcp : c ≠ '+' := by
      intro h
      subst h
      revert hct
      decide
    have hall : (c :: rest).all isDigit = true := by
      rw [List.all_eq_true]
      intro x hx
      refine hd x ?_
      rw [hs]; exact hx
    rw [goAtoi]
    rw [if_neg hcm, if_neg hcp, if_pos hall]
    have := digitsVal_natToStr n
    rw [hs] at this
    rw [this]

theorem goAtoi_intToStr (n : Int) : goAtoi (intToStr n) = n := by
  unfold intToStr
  split
  · rename_i h
    have hne := natToStr_ne_nil n.natAbs
    have hd := natToStr_all_isDigit n.natAbs
    rw [goAtoi]
    rw [if_pos rfl]
    rw [if_neg (by simpa [List.isEmpty_iff] using hne)]
    rw [if_pos (by rw [List.all_eq_true]; intro x hx; exact hd x hx)]
    rw [digitsVal_natToStr]
    omega
  · rename_i h
    rw [goAtoi_natToStr]
    omega

theorem natToStr_not_sep (n : Nat) :
    ∀ c ∈ natToStr n, c ≠ ';' ∧ c ≠ '\n' ∧ c ≠ '|' := by
  intro c hc
  have h := isDigit_toNat (natToStr_all_isDigit n c hc)
  refine ⟨?_, ?_, ?_⟩ <;> intro he <;> subst he <;> revert h <;> decide

theorem intToStr_not_sep (n : Int) :
    ∀ c ∈ intToStr n, c ≠ ';' ∧ c ≠ '\n' ∧ c ≠ '|' := by
  intro c hc
  unfold intToStr at hc
  split at hc
  · rcases List.mem_cons.mp hc with h1 | h1
    · subst h1
      refine ⟨by decide, by decide, by decide⟩
    · exact natToStr_not_sep _ c h1
  · exact natToStr_not_sep _ c hc

theorem splitCh_nil (c : Char) : splitCh c [] = [[]] := rfl

theorem splitCh_ne_nil (c : Char) (l : Str) : splitCh c l ≠ [] := by
  induction l with
  | nil => simp [splitCh]
  | cons x xs ih =>
    rw [splitCh]
    split
    · simp
    · cases h : splitCh c xs with
      | nil => exact absurd h ih
      | cons f rest => simp

theorem splitCh_no_sep {c : Char} {l : Str} (h : ∀ x ∈ l, x ≠ c) :
    splitCh c l = [l] := by
  induction l with
  | nil => rfl
  | cons x xs ih =>
    rw [splitCh]
    rw [if_neg (h x (List.mem_cons_self _ _))]
    rw [ih (fun y hy => h y (List.mem_cons_of_mem _ hy))]

theorem splitCh_append_sep {c : Char} {l₁ : Str} (l₂ : Str)
    (h : ∀ x ∈ l₁, x ≠ c) :
    splitCh c (l₁ ++ c :: l₂) = l₁ :: splitCh c l₂ := by
  induction l₁ with
  | nil =>
    rw [List.nil_append, splitCh, if_pos rfl]
  | cons x xs ih =>
    rw [List.cons_append, splitCh,
      if_neg (h x (List.mem_cons_self _ _)),
      ih (fun y hy => h y (List.mem_cons_of_mem _ hy))]

theorem splitCh_encodeAll (f : α → Str) (l : List α)
    (h : ∀ x ∈ l, ∀ ch ∈ f x, ch ≠ '\n') :
    splitCh '\n' (encodeAll f l) = l.map f ++ [[]] := by
  induction l with
  | nil => rfl
  | cons x xs ih =>
    rw [encodeAll, splitCh_append_sep _ (h x (List.mem_cons_self _ _)),
      ih (fun y hy => h y (List.mem_cons_of_mem _ hy)), List.map_cons,
      List.cons_append]

theorem splitCh_fields3 {a b c : Str}
    (ha : ∀ x ∈ a, x ≠ ';') (hb : ∀ x ∈ b, x ≠ ';') (hc : ∀ x ∈ c, x ≠ ';') :
    splitCh ';' (a ++ ';' :: b ++ ';' :: c) = [a, b, c] := by
  rw [show a ++ ';' :: b ++ ';' :: c = a ++ ';' :: (b ++ ';' :: c) by simp]
  rw [splitCh_append_sep _ ha, splitCh_append_sep _ hb, splitCh_no_sep hc]

theorem splitCh_fields5 {a b c d e : Str}
    (ha : ∀ x ∈ a, x ≠ ';') (hb : ∀ x ∈ b, x ≠ ';') (hc : ∀ x ∈ c, x ≠ ';')
    (hd : ∀ x ∈ d, x ≠ ';') (he : ∀ x ∈ e, x ≠ ';') :
    splitCh ';' (a ++ ';' :: b ++ ';' :: c ++ ';' :: d ++ ';' :: e) = [a, b, c, d, e] := by
  rw [show a ++ ';' :: b ++ ';' :: c ++ ';' :: d ++ ';' :: e
      = a ++ ';' :: (b ++ ';' :: (c ++ ';' :: (d ++ ';' :: e))) by simp]
  rw [splitCh_append_sep _ ha, splitCh_append_sep _ hb, splitCh_append_sep _ hc,
    splitCh_append_sep _ hd, splitCh_no_sep he]

/-- C10: Import processes a collection only when the corresponding slice
is non-nil, so on the zero-value Service it reads and merges nothing,
returns without error, and leaves the store empty, whatever dump files
the directory holds. -/
theorem c10_import_on_zero_value_is_noop (d : Dir) :
    goImport zeroService d = some zeroService := rfl

/-- C1: Pay validates the amount, the account and the balance in that
order, returning the matching sentinel error with the store untouched,
and otherwise debits the paid account by exactly the amount, appends a
new INPROGRESS payment carrying the account, amount, category and a
freshly generated identifier distinct from every existing payment
identifier, and returns it; it never succeeds when the amount is not
positive or exceeds the balance. -/
theorem c1_pay_contract (s : Service) (aid : Int) (amount : Money) (cat : Str)
    (hfresh : ∀ q ∈ sl s.payments, q.id ≠ genUUID s.uuidSeed) :
    (amount ≤ 0 → goPay s aid amount cat = (.error .amountMustBePositive, s)) ∧
    (0 < amount → goFindLast (fun a => a.id == aid) (sl s.accounts) = none →
      goPay s aid amount cat = (.error .accountNotFound, s)) ∧
    (∀ acc, 0 < amount →
      goFindLast (fun a => a.id == aid) (sl s.accounts) = some acc →
      acc.balance < amount →
      goPay s aid amount cat = (.error .notEnoughBalance, s)) ∧
    (∀ acc, 0 < amount →
      goFindLast (fun a => a.id == aid) (sl s.accounts) = some acc →
      amount ≤ acc.balance →
      ∃ p s2, goPay s aid amount cat = (.ok p, s2) ∧
        p.accountID = aid ∧ p.amount = amount ∧ p.category = cat ∧
        p.status = statusInProgress ∧ p.id = genUUID s.uuidSeed ∧
        (∀ q ∈ sl s.payments, q.id ≠ p.id) ∧
        sl s2.payments = sl s.payments ++ [p] ∧
        balanceOf s aid = some acc.balance ∧
        balanceOf s2 aid = some (acc.balance - amount)) ∧
    (∀ p s2, goPay s aid amount cat = (.ok p, s2) →
      0 < amount ∧ ∃ acc,
        goFindLast (fun a => a.id == aid) (sl s.accounts) = some acc ∧
        amount ≤ acc.balance) := by
  refine ⟨?_, ?_, ?_, ?_, ?_⟩
  · intro h
    simp [goPay, h]
  · intro hpos hfind
    simp [goPay, not_le.mpr hpos, hfind]
  · intro acc hpos hfind hlt
    simp [goPay, not_le.mpr hpos, hfind, hlt]
  · intro acc hpos hfind hle
    have heq : goPay s aid amount cat =
        (.ok { id := genUUID s.uuidSeed, accountID := aid, amount := amount,
               category := cat, status := statusInProgress },
         { s with
           accounts := some (updateLast (fun a => a.id == aid)
             (fun a => { a with balance := a.balance - amount }) (sl s.accounts)),
           payments := some (sl s.payments ++
             [{ id := genUUID s.uuidSeed, accountID := aid, amount := amount,
                category := cat, status := statusInProgress }]),
           uuidSeed := s.uuidSeed + 1 }) := by
      simp [goPay, not_le.mpr hpos, hfind, not_lt.mpr hle]
    refine ⟨_, _, heq, rfl, rfl, rfl, rfl, rfl, hfresh, rfl, ?_, ?_⟩
    · unfold balanceOf
      rw [hfind]
      rfl
    · unfold balanceOf
      show (goFindLast (fun a => a.id == aid)
        (sl (some (updateLast (fun a => a.id == aid)
          (fun a => { a with balance := a.balance - amount }) (sl s.accounts))))).map
          Account.balance = _
      rw [sl_some, @goFindLast_updateLast _ (fun a => a.id == aid)
        (fun a => { a with balance := a.balance - amount }) (sl s.accounts)
        (fun a => rfl), hfind]
      rfl
  · intro p s2 hok
    by_cases hneg : amount ≤ 0
    · simp only [goPay, if_pos hneg] at hok
      exact absurd hok (by simp)
    · cases hfind : goFindLast (fun a => a.id == aid) (sl s.accounts) with
      | none =>
        simp only [goPay, if_neg hneg, hfind] at hok
        exact absurd hok (by simp)
      | some acc =>
        by_cases hlt : acc.balance < amount
        · simp only [goPay, if_neg hneg, hfind, if_pos hlt] at hok
          exact absurd hok (by simp)
        · exact ⟨not_le.mp hneg, acc, rfl, not_lt.mp hlt⟩

/-- Witness for C1: on a store with one account of balance 10 and no
payments, paying 4 succeeds and leaves balance 6. -/
theorem c1_pay_contract_witness :
    balanceOf (goPay svcBal10 1 4 catFood).2 1 = some 6 := by
  obtain ⟨-, -, -, h4, -⟩ := c1_pay_contract svcBal10 1 4 catFood (by decide)
  obtain ⟨p, s2, heq, -, -, -, -, -, -, -, -, hbal⟩ :=
    h4 { id := 1, phone := phoneP, balance := 10 } (by decide) (by decide) (by decide)
  rw [heq]
  rw [hbal]
  norm_num

/-- C5: PayFromFavorite returns the favorite-not-found error when the
favorite is absent, and otherwise behaves exactly as Pay on the
favorite stored account, amount and category; on success the new
payment carries those fields, has status INPROGRESS, and the account
is debited by the favorite amount. -/
theorem c5_payFromFavorite_contract (s : Service) (fid : Str) :
    (goFindFavoriteByID s fid = none →
      goPayFromFavorite s fid = (.error .favoriteNotFound, s)) ∧
    (∀ f, goFindFavoriteByID s fid = some f →
      goPayFromFavorite s fid = goPay s f.accountID f.amount f.category) ∧
    (∀ f p s2, goFindFavoriteByID s fid = some f →
      goPayFromFavorite s fid = (.ok p, s2) →
      p.accountID = f.accountID ∧ p.amount = f.amount ∧
      p.category = f.category ∧ p.status = statusInProgress ∧
      balanceOf s2 f.accountID =
        (balanceOf s f.accountID).map (fun b => b - f.amount) ∧
      sl s2.payments = sl s.payments ++ [p]) := by
  refine ⟨?_, ?_, ?_⟩
  · intro h
    simp [goPayFromFavorite, h]
  · intro f h
    simp [goPayFromFavorite, h]
  · intro f p s2 hf hok
    simp only [goPayFromFavorite, hf] at hok
    by_cases hneg : f.amount ≤ 0
    · simp only [goPay, if_pos hneg] at hok
      exact absurd hok (by simp)
    · cases hfind : goFindLast (fun a => a.id == f.accountID) (sl s.accounts) with
      | none =>
        simp only [goPay, if_neg hneg, hfind] at hok
        exact absurd hok (by simp)
      | some acc =>
        by_cases hlt : acc.balance < f.amount
        · simp only [goPay, if_neg hneg, hfind, if_pos hlt] at hok
          exact absurd hok (by simp)
        · simp only [goPay, if_neg hneg, hfind, if_neg hlt, Prod.mk.injEq,
            Except.ok.injEq] at hok
          obtain ⟨hp, hs⟩ := hok
          subst hp
          subst hs
          refine ⟨rfl, rfl, rfl, rfl, ?_, rfl⟩
          unfold balanceOf
          show (goFindLast (fun a => a.id == f.accountID)
            (sl (some (updateLast (fun a => a.id == f.accountID)
              (fun a => { a with balance := a.balance - f.amount })
              (sl s.accounts))))).map Account.balance = _
          rw [sl_some, @goFindLast_updateLast _ (fun a => a.id == f.accountID)
            (fun a => { a with balance := a.balance - f.amount }) (sl s.accounts)
            (fun a => rfl), hfind]
          rfl

/-- Witness for C5: on a store holding a favorite of amount 4 aimed at a
funded account, PayFromFavorite on its identifier is exactly Pay on the
stored fields. -/
theorem c5_payFromFavorite_contract_witness :
    goPayFromFavorite svcWithFav ['f'] = goPay svcWithFav 1 4 catFood := by
  have h := (c5_payFromFavorite_contract svcWithFav ['f']).2.1
    { id := ['f'], accountID := 1, name := ['n'], amount := 4, category := catFood }
    (by decide)
  exact h

theorem goPay_error_state (s : Service) (aid : Int) (amount : Money) (cat : Str)
    (e : Err) (h : (goPay s aid amount cat).1 = .error e) :
    (goPay s aid amount cat).2 = s := by
  by_cases hneg : amount ≤ 0
  · simp [goPay, hneg]
  · cases hfind : goFindLast (fun a => a.id == aid) (sl s.accounts) with
    | none => simp [goPay, hneg, hfind]
    | some acc =>
      by_cases hlt : acc.balance < amount
      · simp [goPay, hneg, hfind, hlt]
      · simp [goPay, hneg, hfind, hlt] at h

/-- C9 amended: each ledger-store operation that returns an error leaves
the store unchanged; ImportFromFile is excluded, since it mutates the
store record by record before an error is returned. -/
theorem c9_ledger_ops_fail_atomically (s : Service) (op : CoreOp) (e : Err)
    (h : (applyCore s op).1 = some e) : (applyCore s op).2 = s := by
  cases op with
  | register ph =>
    by_cases hc : (sl s.accounts).any (fun a => a.phone == ph)
    · simp [applyCore, goRegisterAccount, hc]
    · simp [applyCore, goRegisterAccount, hc] at h
  | deposit aid amount =>
    by_cases hneg : amount ≤ 0
    · simp [applyCore, goDeposit, hneg]
    · cases hfind : goFindLast (fun a => a.id == aid) (sl s.accounts) with
      | none => simp [applyCore, goDeposit, hneg, hfind]
      | some acc => simp [applyCore, goDeposit, hneg, hfind] at h
  | pay aid amount cat =>
    rcases hg : goPay s aid amount cat with ⟨r, s2⟩
    cases r with
    | error e2 =>
      have h2 : (goPay s aid amount cat).2 = s :=
        goPay_error_state s aid amount cat e2 (by rw [hg])
      rw [hg] at h2
      simp [applyCore, hg, h2]
    | ok p =>
      simp [applyCore, hg] at h
  | reject pid =>
    cases hp : goFindPaymentByID s pid with
    | none => simp [applyCore, goReject, hp]
    | some p =>
      cases ha : goFindAccountByID s p.accountID with
      | none => simp [applyCore, goReject, hp, ha]
      | some acc => simp [applyCore, goReject, hp, ha] at h
  | repeatPay pid =>
    cases hp : goFindPaymentByID s pid with
    | none => simp [applyCore, goRepeat, hp]
    | some p =>
      rcases hg : goPay s p.accountID p.amount p.category with ⟨r, s2⟩
      cases r with
      | error e2 =>
        have h2 : (goPay s p.accountID p.amount p.category).2 = s :=
          goPay_error_state s p.accountID p.amount p.category e2 (by rw [hg])
        rw [hg] at h2
        simp [applyCore, goRepeat, hp, hg, h2]
      | ok q =>
        simp [applyCore, goRepeat, hp, hg] at h
  | favoritePayment pid name =>
    by_cases hc : (sl s.favorites).any (fun f => f.name == name)
    · simp [applyCore, goFavoritePayment, hc]
    · cases hp : goFindPaymentByID s pid with
      | none => simp [applyCore, goFavoritePayment, hc, hp]
      | some p => simp [applyCore, goFavoritePayment, hc, hp] at h
  | payFromFavorite fid =>
    cases hf : goFindFavoriteByID s fid with
    | none => simp [applyCore, goPayFromFavorite, hf]
    | some f =>
      rcases hg : goPay s f.accountID f.amount f.category with ⟨r, s2⟩
      cases r with
      | error e2 =>
        have h2 : (goPay s f.accountID f.amount f.category).2 = s :=
          goPay_error_state s f.accountID f.amount f.category e2 (by rw [hg])
        rw [hg] at h2
        simp [applyCore, goPayFromFavorite, hf, hg, h2]
      | ok q =>
        simp [applyCore, goPayFromFavorite, hf, hg] at h

/-- Witness for the amended C9: a Deposit against the empty store fails
with account-not-found and leaves the store unchanged. -/
theorem c9_ledger_ops_fail_atomically_witness :
    (applyCore zeroService (CoreOp.deposit 1 5)).2 = zeroService :=
  c9_ledger_ops_fail_atomically zeroService (CoreOp.deposit 1 5)
    Err.accountNotFound (by decide)

/-- Counterexample to C9 as stated: ImportFromFile on contents whose one
record carries a fresh phone and an unparsable balance registers the
account, then returns the amount-must-be-positive error, leaving the
accounts collection changed. -/
theorem c9_importFromFile_not_atomic :
    goImportFromFile zeroService contentBadBalance =
      some (some Err.amountMustBePositive, svcRegQ) ∧
    svcRegQ ≠ zeroService := by
  exact ⟨by decide, by decide⟩

/-- C8 amended: a line with fewer than two semicolon fields is silently
skipped by every decoding loop, which then continues with the
remaining lines; this does not extend to lines with at least two but
fewer fields than the record format declares, which abort decoding. -/
theorem c8_short_lines_skipped (s : Service) (line : Str) (rest : List Str)
    (h : (splitCh ';' line).length < 2) :
    importLines importAccLine s (line :: rest) = importLines importAccLine s rest ∧
    importLines importPayLine s (line :: rest) = importLines importPayLine s rest ∧
    importLines importFavLine s (line :: rest) = importLines importFavLine s rest ∧
    iffPieces s (line :: rest) = iffPieces s rest := by
  cases hf : splitCh ';' line with
  | nil =>
    exact ⟨by simp [importLines, importAccLine, hf],
      by simp [importLines, importPayLine, hf],
      by simp [importLines, importFavLine, hf],
      by simp [iffPieces, iffPiece, hf]⟩
  | cons f0 t =>
    cases t with
    | nil =>
      exact ⟨by simp [importLines, importAccLine, hf],
        by simp [importLines, importPayLine, hf],
        by simp [importLines, importFavLine, hf],
        by simp [iffPieces, iffPiece, hf]⟩
    | cons f1 t2 =>
      rw [hf] at h
      simp at h
      omega

/-- Witness for the amended C8: the empty line produced by a trailing
newline has a single field and is skipped by the account decoder. -/
theorem c8_short_lines_skipped_witness :
    importLines importAccLine zeroService ([] :: []) =
      importLines importAccLine zeroService [] :=
  (c8_short_lines_skipped zeroService [] [] (by decide)).1

/-- Counterexample to C8 as stated: a line with exactly two fields, fewer
than any record format declares, makes both ImportFromFile and Import
read a field index out of range, a panic that aborts decoding, here
modelled as none. -/
theorem c8_two_field_line_panics :
    goImportFromFile zeroService lineTwoFields = none ∧
    goImport svcReg1 dirTwoFields = none := by
  exact ⟨by decide, by decide⟩

theorem find?_key_none [BEq κ] [LawfulBEq κ] (key : α → κ) (k : κ) {l : List α}
    (h : k ∉ l.map key) : l.find? (fun y => key y == k) = none := by
  rw [List.find?_eq_none]
  intro y hy hb
  have hk : key y = k := beq_iff_eq.mp hb
  exact h (hk ▸ List.mem_map_of_mem key hy)

theorem find?_key_reverse_none [BEq κ] [LawfulBEq κ] (key : α → κ) (k : κ)
    {l : List α} (h : k ∉ l.map key) :
    l.reverse.find? (fun y => key y == k) = none := by
  refine find?_key_none key k ?_
  intro hmem
  rw [List.map_reverse, List.mem_reverse] at hmem
  exact h hmem

theorem find?_eq_goFindLast_of_nodup [BEq κ] [LawfulBEq κ] (key : α → κ) (k : κ)
    {l : List α} (h : (l.map key).Nodup) :
    l.find? (fun x => key x == k) = goFindLast (fun x => key x == k) l := by
  induction l with
  | nil => rfl
  | cons x xs ih =>
    rw [List.map_cons, List.nodup_cons] at h
    obtain ⟨hx, hxs⟩ := h
    cases hbx : (key x == k) with
    | true =>
      have hkx : key x = k := beq_iff_eq.mp hbx
      rw [@List.find?_cons_of_pos _ (fun y => key y == k) x xs hbx]
      unfold goFindLast
      rw [List.reverse_cons, List.find?_append,
        find?_key_reverse_none key k (hkx ▸ hx)]
      simp [hbx]
    | false =>
      rw [@List.find?_cons_of_neg _ (fun y => key y == k) x xs (by simp [hbx]),
        @goFindLast_cons_neg _ (fun y => key y == k) x xs hbx]
      exact ih hxs

theorem updateFirst_eq_updateLast_of_nodup [BEq κ] [LawfulBEq κ] (key : α → κ)
    (k : κ) (f : α → α) {l : List α} (h : (l.map key).Nodup) :
    updateFirst (fun x => key x == k) f l = updateLast (fun x => key x == k) f l := by
  induction l with
  | nil => rfl
  | cons x xs ih =>
    rw [List.map_cons, List.nodup_cons] at h
    obtain ⟨hx, hxs⟩ := h
    cases hbx : (key x == k) with
    | true =>
      have hkx : key x = k := beq_iff_eq.mp hbx
      rw [@updateFirst_cons_pos _ (fun y => key y == k) f x xs hbx]
      unfold updateLast
      rw [List.reverse_cons,
        updateFirst_append_of_find_none _ (find?_key_reverse_none key k (hkx ▸ hx)),
        show updateFirst (fun y => key y == k) f [x] = [f x] from by
          simp [updateFirst, hbx],
        List.reverse_append]
      simp
    | false =>
      rw [@updateFirst_cons_neg _ (fun y => key y == k) f x xs hbx,
        @updateLast_cons_neg _ (fun y => key y == k) f x xs hbx, ih hxs]

theorem map_key_updateFirst (key : α → κ) {p : α → Bool} {f : α → α} (l : List α)
    (hk : ∀ a, key (f a) = key a) :
    (updateFirst p f l).map key = l.map key := by
  induction l with
  | nil => rfl
  | cons x xs ih =>
    cases hx : p x with
    | true => rw [updateFirst_cons_pos hx, List.map_cons, List.map_cons, hk]
    | false => rw [updateFirst_cons_neg hx, List.map_cons, List.map_cons, ih]

theorem map_key_updateLast (key : α → κ) {p : α → Bool} {f : α → α} (l : List α)
    (hk : ∀ a, key (f a) = key a) :
    (updateLast p f l).map key = l.map key := by
  unfold updateLast
  rw [show List.map key (updateFirst p f l.reverse).reverse
      = (List.map key (updateFirst p f l.reverse)).reverse from List.map_reverse key _,
    map_key_updateFirst key _ hk, ← List.map_reverse, List.reverse_reverse]

theorem goPay_ok_elim {s : Service} {aid : Int} {amount : Money} {cat : Str}
    {p : Payment} {s1 : Service}
    (h : goPay s aid amount cat = (.ok p, s1)) :
    ∃ acc, 0 < amount ∧
      goFindLast (fun a => a.id == aid) (sl s.accounts) = some acc ∧
      amount ≤ acc.balance ∧
      p = { id := genUUID s.uuidSeed, accountID := aid, amount := amount,
            category := cat, status := statusInProgress } ∧
      s1 = { s with
        accounts := some (updateLast (fun a => a.id == aid)
          (fun a => { a with balance := a.balance - amount }) (sl s.accounts)),
        payments := some (sl s.payments ++ [p]),
        uuidSeed := s.uuidSeed + 1 } := by
  by_cases hneg : amount ≤ 0
  · simp only [goPay, if_pos hneg] at h
    exact absurd h (by simp)
  · cases hfind : goFindLast (fun a => a.id == aid) (sl s.accounts) with
    | none =>
      simp only [goPay, if_neg hneg, hfind] at h
      exact absurd h (by simp)
    | some acc =>
      by_cases hlt : acc.balance < amount
      · simp only [goPay, if_neg hneg, hfind, if_pos hlt] at h
        exact absurd h (by simp)
      · simp only [goPay, if_neg hneg, hfind, if_neg hlt, Prod.mk.injEq,
          Except.ok.injEq] at h
        obtain ⟨hp, hs⟩ := h
        exact ⟨acc, not_le.mp hneg, rfl, not_lt.mp hlt, hp.symm, by rw [← hs, ← hp]⟩

theorem goReject_eq {s : Service} {pid : Str} {p : Payment} {acc : Account}
    (hp : goFindPaymentByID s pid = some p)
    (ha : goFindAccountByID s p.accountID = some acc) :
    goReject s pid = (.ok (), { s with
      payments := some (updateFirst (fun q => q.id == pid)
        (fun q => { q with status := statusFail }) (sl s.payments)),
      accounts := some (updateFirst (fun a => a.id == p.accountID)
        (fun a => { a with balance := a.balance + p.amount }) (sl s.accounts)) }) := by
  simp [goReject, hp, ha]

theorem coreStep_register (s : Service) (ph : Str) :
    coreStep s (.register ph) = (goRegisterAccount s ph).2 := by
  rcases h : goRegisterAccount s ph with ⟨r, s2⟩
  cases r <;> simp [coreStep, applyCore, h]

theorem coreStep_deposit (s : Service) (aid : Int) (m : Money) :
    coreStep s (.deposit aid m) = (goDeposit s aid m).2 := by
  rcases h : goDeposit s aid m with ⟨r, s2⟩
  cases r <;> simp [coreStep, applyCore, h]

theorem coreStep_pay (s : Service) (aid : Int) (m : Money) (cat : Str) :
    coreStep s (.pay aid m cat) = (goPay s aid m cat).2 := by
  rcases h : goPay s aid m cat with ⟨r, s2⟩
  cases r <;> simp [coreStep, applyCore, h]

theorem coreStep_reject (s : Service) (pid : Str) :
    coreStep s (.reject pid) = (goReject s pid).2 := by
  rcases h : goReject s pid with ⟨r, s2⟩
  cases r <;> simp [coreStep, applyCore, h]

theorem coreStep_repeatPay (s : Service) (pid : Str) :
    coreStep s (.repeatPay pid) = (goRepeat s pid).2 := by
  rcases h : goRepeat s pid with ⟨r, s2⟩
  cases r <;> simp [coreStep, applyCore, h]

theorem coreStep_favoritePayment (s : Service) (pid name : Str) :
    coreStep s (.favoritePayment pid name) = (goFavoritePayment s pid name).2 := by
  rcases h : goFavoritePayment s pid name with ⟨r, s2⟩
  cases r <;> simp [coreStep, applyCore, h]

theorem coreStep_payFromFavorite (s : Service) (fid : Str) :
    coreStep s (.payFromFavorite fid) = (goPayFromFavorite s fid).2 := by
  rcases h : goPayFromFavorite s fid with ⟨r, s2⟩
  cases r <;> simp [coreStep, applyCore, h]

theorem goRegisterAccount_counter (s : Service) (ph : Str) :
    s.nextAccountID ≤ (goRegisterAccount s ph).2.nextAccountID := by
  by_cases hc : (sl s.accounts).any (fun a => a.phone == ph)
  · simp [goRegisterAccount, hc]
  · simp [goRegisterAccount, hc]

theorem goDeposit_counter (s : Service) (aid : Int) (m : Money) :
    (goDeposit s aid m).2.nextAccountID = s.nextAccountID := by
  by_cases hneg : m ≤ 0
  · simp [goDeposit, hneg]
  · cases hf : goFindLast (fun a => a.id == aid) (sl s.accounts) with
    | none => simp [goDeposit, hneg, hf]
    | some acc => simp [goDeposit, hneg, hf]

theorem goPay_counter (s : Service) (aid : Int) (m : Money) (cat : Str) :
    (goPay s aid m cat).2.nextAccountID = s.nextAccountID := by
  by_cases hneg : m ≤ 0
  · simp [goPay, hneg]
  · cases hf : goFindLast (fun a => a.id == aid) (sl s.accounts) with
    | none => simp [goPay, hneg, hf]
    | some acc =>
      by_cases hlt : acc.balance < m
      · simp [goPay, hneg, hf, hlt]
      · simp [goPay, hneg, hf, hlt]

theorem goReject_counter (s : Service) (pid : Str) :
    (goReject s pid).2.nextAccountID = s.nextAccountID := by
  cases hp : goFindPaymentByID s pid with
  | none => simp [goReject, hp]
  | some p =>
    cases ha : goFindAccountByID s p.accountID with
    | none => simp [goReject, hp, ha]
    | some acc => simp [goReject, hp, ha]

theorem goRepeat_counter (s : Service) (pid : Str) :
    (goRepeat s pid).2.nextAccountID = s.nextAccountID := by
  cases hp : goFindPaymentByID s pid with
  | none => simp [goRepeat, hp]
  | some p => simp [goRepeat, hp, goPay_counter]

theorem goFavoritePayment_counter (s : Service) (pid name : Str) :
    (goFavoritePayment s pid name).2.nextAccountID = s.nextAccountID := by
  by_cases hc : (sl s.favorites).any (fun f => f.name == name)
  · simp [goFavoritePayment, hc]
  · cases hp : goFindPaymentByID s pid with
    | none => simp [goFavoritePayment, hc, hp]
    | some p => simp [goFavoritePayment, hc, hp]

theorem goPayFromFavorite_counter (s : Service) (fid : Str) :
    (goPayFromFavorite s fid).2.nextAccountID = s.nextAccountID := by
  cases hf : goFindFavoriteByID s fid with
  | none => simp [goPayFromFavorite, hf]
  | some f => simp [goPayFromFavorite, hf, goPay_counter]

theorem coreStep_counter (s : Service) (op : CoreOp) :
    s.nextAccountID ≤ (coreStep s op).nextAccountID := by
  cases op with
  | register ph => rw [coreStep_register]; exact goRegisterAccount_counter s ph
  | deposit aid m => rw [coreStep_deposit, goDeposit_counter]
  | pay aid m cat => rw [coreStep_pay, goPay_counter]
  | reject pid => rw [coreStep_reject, goReject_counter]
  | repeatPay pid => rw [coreStep_repeatPay, goRepeat_counter]
  | favoritePayment pid name =>
    rw [coreStep_favoritePayment, goFavoritePayment_counter]
  | payFromFavorite fid => rw [coreStep_payFromFavorite, goPayFromFavorite_counter]

theorem iffPiece_counter {s : Service} {piece : Str} {r : Option Err × Service}
    (h : iffPiece s piece = some r) : s.nextAccountID ≤ r.2.nextAccountID := by
  unfold iffPiece at h
  cases hsp : splitCh ';' piece with
  | nil =>
    simp only [hsp] at h
    injection h with h2
    rw [← h2]
  | cons f0 t =>
    cases t with
    | nil =>
      simp only [hsp] at h
      injection h with h2
      rw [← h2]
    | cons f1 rest =>
      simp only [hsp] at h
      rcases hreg : goRegisterAccount s f1 with ⟨rr, s1⟩
      have hm1 : s.nextAccountID ≤ s1.nextAccountID := by
        have hgc := goRegisterAccount_counter s f1
        rw [hreg] at hgc
        exact hgc
      cases rr with
      | error e =>
        simp only [hreg] at h
        injection h with h2
        rw [← h2]
        exact hm1
      | ok acc =>
        cases rest with
        | nil =>
          simp only [hreg] at h
          exact absurd h (by simp)
        | cons f2 t2 =>
          rcases hdep : goDeposit s1 acc.id (goAtoi f2) with ⟨rd, s2⟩
          have hm2 : s1.nextAccountID = s2.nextAccountID := by
            have hgc := goDeposit_counter s1 acc.id (goAtoi f2)
            rw [hdep] at hgc
            exact hgc.symm
          cases rd with
          | error e =>
            simp only [hreg, hdep] at h
            injection h with h2
            rw [← h2]
            show s.nextAccountID ≤ s2.nextAccountID
            omega
          | ok u =>
            simp only [hreg, hdep] at h
            injection h with h2
            rw [← h2]
            show s.nextAccountID ≤ s2.nextAccountID
            omega

theorem iffPieces_counter {s : Service} {ps : List Str} {r : Option Err × Service}
    (h : iffPieces s ps = some r) : s.nextAccountID ≤ r.2.nextAccountID := by
  induction ps generalizing s with
  | nil =>
    simp only [iffPieces] at h
    injection h with h2
    rw [← h2]
  | cons p ps ih =>
    unfold iffPieces at h
    cases hp : iffPiece s p with
    | none => rw [hp] at h; exact absurd h (by simp)
    | some r1 =>
      rw [hp] at h
      rcases r1 with ⟨e1, s1⟩
      have hm1 : s.nextAccountID ≤ s1.nextAccountID := iffPiece_counter hp
      cases e1 with
      | none =>
        simp at h
        have := ih h
        omega
      | some e =>
        simp at h
        rw [← h]
        exact hm1

/-- Counterexample to C7 as stated: importing an accounts file listing
identifiers 5 then 3 into a store with one account leaves the counter
at 3, below the maximum imported identifier 5, which remains in the
store, so the counter has been decremented and identifier reuse is
possible. -/
theorem c7_import_sets_counter_to_last_appended :
    (goImport svcReg1 dirTwoIds).map (fun t => (sl t.accounts).map Account.id)
      = some [1, 5, 3] ∧
    (goImport svcReg1 dirTwoIds).map Service.nextAccountID = some 3 ∧
    (3 : Int) < 5 := by
  exact ⟨by decide, by decide, by decide⟩

theorem goPay_energy (s : Service) (aid : Int) (m : Money) (cat : Str) :
    sumBal (goPay s aid m cat).2 + sumInProg (goPay s aid m cat).2
      = sumBal s + sumInProg s := by
  by_cases hneg : m ≤ 0
  · simp [goPay, hneg]
  · cases hf : goFindLast (fun a => a.id == aid) (sl s.accounts) with
    | none => simp [goPay, hneg, hf]
    | some acc =>
      by_cases hlt : acc.balance < m
      · simp [goPay, hneg, hf, hlt]
      · simp only [goPay, if_neg hneg, hf, if_neg hlt]
        unfold sumBal sumInProg
        simp only [sl_some]
        rw [sum_map_updateLast Account.balance
          (fun a => { a with balance := a.balance - m }) hf]
        rw [List.map_append, List.sum_append]
        simp only [List.map_cons, List.map_nil, List.sum_cons, List.sum_nil]
        simp only [if_true]
        ring

theorem coreStep_energy (s : Service) (op : CoreOp) (hsafe : safeOp s op = true) :
    sumBal (coreStep s op) + sumInProg (coreStep s op)
      = sumBal s + sumInProg s + depDelta s op := by
  cases op with
  | register ph =>
    rw [coreStep_register]
    by_cases hc : (sl s.accounts).any (fun a => a.phone == ph)
    · simp [goRegisterAccount, hc, depDelta]
    · simp only [goRegisterAccount, hc, if_neg, Bool.false_eq_true, ite_false]
      unfold sumBal sumInProg
      simp [sl_some, List.map_append, List.sum_append, depDelta]
  | deposit aid m =>
    rw [coreStep_deposit]
    by_cases hneg : m ≤ 0
    · simp [goDeposit, hneg, depDelta]
    · cases hf : goFindLast (fun a => a.id == aid) (sl s.accounts) with
      | none => simp [goDeposit, hneg, hf, depDelta]
      | some acc =>
        have hdd : depDelta s (.deposit aid m) = m := by
          simp [depDelta, goDeposit, hneg, hf]
        rw [hdd]
        simp only [goDeposit, if_neg hneg, hf]
        unfold sumBal sumInProg
        simp only [sl_some]
        rw [sum_map_updateLast Account.balance
          (fun a => { a with balance := a.balance + m }) hf]
        ring
  | pay aid m cat =>
    rw [coreStep_pay, goPay_energy]
    simp [depDelta]
  | reject pid =>
    rw [coreStep_reject]
    cases hp : goFindPaymentByID s pid with
    | none => simp [goReject, hp, depDelta]
    | some p =>
      have hstat : p.status = statusInProgress := by
        simp only [safeOp, hp] at hsafe
        exact beq_iff_eq.mp hsafe
      cases ha : goFindAccountByID s p.accountID with
      | none => simp [goReject, hp, ha, depDelta]
      | some acc =>
        simp only [goReject, hp, ha]
        unfold goFindPaymentByID at hp
        unfold goFindAccountByID at ha
        unfold sumBal sumInProg
        simp only [sl_some]
        rw [sum_map_updateFirst Account.balance
          (fun a => { a with balance := a.balance + p.amount }) ha]
        rw [sum_map_updateFirst (fun q => if q.status = statusInProgress then q.amount else 0)
          (fun q => { q with status := statusFail }) hp]
        rw [if_pos hstat]
        rw [if_neg (by decide : ¬ (statusFail = statusInProgress))]
        simp [depDelta]
        ring
  | repeatPay pid =>
    rw [coreStep_repeatPay]
    cases hp : goFindPaymentByID s pid with
    | none => simp [goRepeat, hp, depDelta]
    | some p =>
      simp only [goRepeat, hp]
      rw [goPay_energy]
      simp [depDelta]
  | favoritePayment pid name =>
    rw [coreStep_favoritePayment]
    by_cases hc : (sl s.favorites).any (fun f => f.name == name)
    · simp [goFavoritePayment, hc, depDelta]
    · cases hp : goFindPaymentByID s pid with
      | none => simp [goFavoritePayment, hc, hp, depDelta]
      | some p => simp [goFavoritePayment, hc, hp, depDelta, sumBal, sumInProg]
  | payFromFavorite fid =>
    rw [coreStep_payFromFavorite]
    cases hf : goFindFavoriteByID s fid with
    | none => simp [goPayFromFavorite, hf, depDelta]
    | some f =>
      simp only [goPayFromFavorite, hf]
      rw [goPay_energy]
      simp [depDelta]

theorem runCore_energy (ops : List CoreOp) : ∀ s : Service,
    safeTrace s ops = true →
    sumBal (runCore s ops) + sumInProg (runCore s ops)
      = sumBal s + sumInProg s + totalDep s ops := by
  induction ops with
  | nil =>
    intro s _
    simp [runCore, totalDep]
  | cons op ops ih =>
    intro s hsafe
    rw [safeTrace, Bool.and_eq_true] at hsafe
    obtain ⟨h1, h2⟩ := hsafe
    rw [runCore, totalDep, ih (coreStep s op) h2, coreStep_energy s op h1]
    ring

/-- Counterexample to C3 as stated: rejecting the same payment twice is a
sequence of the listed operations after which the balances plus the
INPROGRESS amounts exceed the deposited total. -/
theorem c3_double_reject_breaks_conservation :
    sumBal (runCore zeroService opsDoubleReject)
      + sumInProg (runCore zeroService opsDoubleReject)
      ≠ totalDep zeroService opsDoubleReject := by
  decide

theorem goRegisterAccount_preserves (s : Service) (ph : Str)
    (hbal : ∀ a ∈ sl s.accounts, 0 ≤ a.balance)
    (hamt : ∀ p ∈ sl s.payments, 0 < p.amount) :
    (∀ a ∈ sl (goRegisterAccount s ph).2.accounts, 0 ≤ a.balance) ∧
    (∀ p ∈ sl (goRegisterAccount s ph).2.payments, 0 < p.amount) := by
  by_cases hc : (sl s.accounts).any (fun a => a.phone == ph)
  · simp only [goRegisterAccount, hc, if_true]
    exact ⟨hbal, hamt⟩
  · simp only [goRegisterAccount, hc, Bool.false_eq_true, if_false]
    constructor
    · intro a ha
      rw [sl_some] at ha
      rcases List.mem_append.mp ha with h1 | h1
      · exact hbal a h1
      · rw [List.mem_singleton] at h1
        subst h1
        exact le_refl 0
    · intro p hp
      exact hamt p hp

theorem goDeposit_preserves (s : Service) (aid : Int) (m : Money)
    (hbal : ∀ a ∈ sl s.accounts, 0 ≤ a.balance)
    (hamt : ∀ p ∈ sl s.payments, 0 < p.amount) :
    (∀ a ∈ sl (goDeposit s aid m).2.accounts, 0 ≤ a.balance) ∧
    (∀ p ∈ sl (goDeposit s aid m).2.payments, 0 < p.amount) := by
  by_cases hneg : m ≤ 0
  · simp only [goDeposit, if_pos hneg]
    exact ⟨hbal, hamt⟩
  · cases hf : goFindLast (fun a => a.id == aid) (sl s.accounts) with
    | none =>
      simp only [goDeposit, if_neg hneg, hf]
      exact ⟨hbal, hamt⟩
    | some acc =>
      simp only [goDeposit, if_neg hneg, hf]
      constructor
      · intro a ha
        rw [sl_some] at ha
        rcases mem_updateLast ha with h1 | ⟨b, hb, hab⟩
        · exact hbal a h1
        · subst hab
          have hb2 : 0 ≤ b.balance := hbal b (goFindLast_mem hb)
          show 0 ≤ b.balance + m
          exact add_nonneg hb2 (le_of_lt (not_le.mp hneg))
      · intro p hp
        exact hamt p hp

theorem goPay_preserves (s : Service) (aid : Int) (m : Money) (cat : Str)
    (hbal : ∀ a ∈ sl s.accounts, 0 ≤ a.balance)
    (hamt : ∀ p ∈ sl s.payments, 0 < p.amount) :
    (∀ a ∈ sl (goPay s aid m cat).2.accounts, 0 ≤ a.balance) ∧
    (∀ p ∈ sl (goPay s aid m cat).2.payments, 0 < p.amount) := by
  by_cases hneg : m ≤ 0
  · simp only [goPay, if_pos hneg]
    exact ⟨hbal, hamt⟩
  · cases hf : goFindLast (fun a => a.id == aid) (sl s.accounts) with
    | none =>
      simp only [goPay, if_neg hneg, hf]
      exact ⟨hbal, hamt⟩
    | some acc =>
      by_cases hlt : acc.balance < m
      · simp only [goPay, if_neg hneg, hf, if_pos hlt]
        exact ⟨hbal, hamt⟩
      · simp only [goPay, if_neg hneg, hf, if_neg hlt]
        constructor
        · intro a ha
          rw [sl_some] at ha
          rcases mem_updateLast ha with h1 | ⟨b, hb, hab⟩
          · exact hbal a h1
          · subst hab
            rw [hf] at hb
            obtain rfl : acc = b := by simpa using hb
            show 0 ≤ acc.balance - m
            exact sub_nonneg.mpr (not_lt.mp hlt)
        · intro p hp
          rw [sl_some] at hp
          rcases List.mem_append.mp hp with h1 | h1
          · exact hamt p h1
          · rw [List.mem_singleton] at h1
            subst h1
            show 0 < m
            exact not_le.mp hneg

theorem goReject_preserves (s : Service) (pid : Str)
    (hbal : ∀ a ∈ sl s.accounts, 0 ≤ a.balance)
    (hamt : ∀ p ∈ sl s.payments, 0 < p.amount) :
    (∀ a ∈ sl (goReject s pid).2.accounts, 0 ≤ a.balance) ∧
    (∀ p ∈ sl (goReject s pid).2.payments, 0 < p.amount) := by
  cases hp : goFindPaymentByID s pid with
  | none =>
    simp only [goReject, hp]
    exact ⟨hbal, hamt⟩
  | some p =>
    cases ha : goFindAccountByID s p.accountID with
    | none =>
      simp only [goReject, hp, ha]
      exact ⟨hbal, hamt⟩
    | some acc =>
      have hpm : 0 < p.amount := by
        unfold goFindPaymentByID at hp
        exact hamt p (List.mem_of_find?_eq_some hp)
      simp only [goReject, hp, ha]
      constructor
      · intro a hma
        rw [sl_some] at hma
        rcases mem_updateFirst hma with h1 | ⟨b, hb, hab⟩
        · exact hbal a h1
        · subst hab
          have hb2 : 0 ≤ b.balance := hbal b (List.mem_of_find?_eq_some hb)
          show 0 ≤ b.balance + p.amount
          exact add_nonneg hb2 (le_of_lt hpm)
      · intro q hq
        rw [sl_some] at hq
        rcases mem_updateFirst hq with h1 | ⟨b, hb, hqb⟩
        · exact hamt q h1
        · subst hqb
          show 0 < b.amount
          exact hamt b (List.mem_of_find?_eq_some hb)

theorem coreStep_preserves (s : Service) (op : CoreOp)
    (hbal : ∀ a ∈ sl s.accounts, 0 ≤ a.balance)
    (hamt : ∀ p ∈ sl s.payments, 0 < p.amount) :
    (∀ a ∈ sl (coreStep s op).accounts, 0 ≤ a.balance) ∧
    (∀ p ∈ sl (coreStep s op).payments, 0 < p.amount) := by
  cases op with
  | register ph =>
    rw [coreStep_register]
    exact goRegisterAccount_preserves s ph hbal hamt
  | deposit aid m =>
    rw [coreStep_deposit]
    exact goDeposit_preserves s aid m hbal hamt
  | pay aid m cat =>
    rw [coreStep_pay]
    exact goPay_preserves s aid m cat hbal hamt
  | reject pid =>
    rw [coreStep_reject]
    exact goReject_preserves s pid hbal hamt
  | repeatPay pid =>
    rw [coreStep_repeatPay]
    cases hp : goFindPaymentByID s pid with
    | none =>
      simp only [goRepeat, hp]
      exact ⟨hbal, hamt⟩
    | some p =>
      simp only [goRepeat, hp]
      exact goPay_preserves s p.accountID p.amount p.category hbal hamt
  | favoritePayment pid name =>
    rw [coreStep_favoritePayment]
    by_cases hc : (sl s.favorites).any (fun f => f.name == name)
    · simp only [goFavoritePayment, hc, if_true]
      exact ⟨hbal, hamt⟩
    · cases hp : goFindPaymentByID s pid with
      | none =>
        simp only [goFavoritePayment, hc, Bool.false_eq_true, if_false, hp]
        exact ⟨hbal, hamt⟩
      | some p =>
        simp only [goFavoritePayment, hc, Bool.false_eq_true, if_false, hp]
        exact ⟨hbal, hamt⟩
  | payFromFavorite fid =>
    rw [coreStep_payFromFavorite]
    cases hf : goFindFavoriteByID s fid with
    | none =>
      simp only [goPayFromFavorite, hf]
      exact ⟨hbal, hamt⟩
    | some f =>
      simp only [goPayFromFavorite, hf]
      exact goPay_preserves s f.accountID f.amount f.category hbal hamt

theorem iffPiece_preserves {s : Service} {piece : Str} {r : Option Err × Service}
    (h : iffPiece s piece = some r)
    (hbal : ∀ a ∈ sl s.accounts, 0 ≤ a.balance)
    (hamt : ∀ p ∈ sl s.payments, 0 < p.amount) :
    (∀ a ∈ sl r.2.accounts, 0 ≤ a.balance) ∧
    (∀ p ∈ sl r.2.payments, 0 < p.amount) := by
  unfold iffPiece at h
  cases hsp : splitCh ';' piece with
  | nil =>
    simp only [hsp] at h
    injection h with h2
    rw [← h2]
    exact ⟨hbal, hamt⟩
  | cons f0 t =>
    cases t with
    | nil =>
      simp only [hsp] at h
      injection h with h2
      rw [← h2]
      exact ⟨hbal, hamt⟩
    | cons f1 rest =>
      simp only [hsp] at h
      rcases hreg : goRegisterAccount s f1 with ⟨rr, s1⟩
      have hp1 : (∀ a ∈ sl s1.accounts, 0 ≤ a.balance) ∧
          (∀ p ∈ sl s1.payments, 0 < p.amount) := by
        have := goRegisterAccount_preserves s f1 hbal hamt
        rw [hreg] at this
        exact this
      cases rr with
      | error e =>
        simp only [hreg] at h
        injection h with h2
        rw [← h2]
        exact hp1
      | ok acc =>
        cases rest with
        | nil =>
          simp only [hreg] at h
          exact absurd h (by simp)
        | cons f2 t2 =>
          rcases hdep : goDeposit s1 acc.id (goAtoi f2) with ⟨rd, s2⟩
          have hp2 : (∀ a ∈ sl s2.accounts, 0 ≤ a.balance) ∧
              (∀ p ∈ sl s2.payments, 0 < p.amount) := by
            have := goDeposit_preserves s1 acc.id (goAtoi f2) hp1.1 hp1.2
            rw [hdep] at this
            exact this
          cases rd with
          | error e =>
            simp only [hreg, hdep] at h
            injection h with h2
            rw [← h2]
            exact hp2
          | ok u =>
            simp only [hreg, hdep] at h
            injection h with h2
            rw [← h2]
            exact hp2

theorem iffPieces_preserves {s : Service} {ps : List Str} {r : Option Err × Service}
    (h : iffPieces s ps = some r)
    (hbal : ∀ a ∈ sl s.accounts, 0 ≤ a.balance)
    (hamt : ∀ p ∈ sl s.payments, 0 < p.amount) :
    (∀ a ∈ sl r.2.accounts, 0 ≤ a.balance) ∧
    (∀ p ∈ sl r.2.payments, 0 < p.amount) := by
  induction ps generalizing s with
  | nil =>
    simp only [iffPieces] at h
    injection h with h2
    rw [← h2]
    exact ⟨hbal, hamt⟩
  | cons p ps ih =>
    unfold iffPieces at h
    cases hp : iffPiece s p with
    | none =>
      rw [hp] at h
      exact absurd h (by simp)
    | some r1 =>
      rw [hp] at h
      rcases r1 with ⟨e1, s1⟩
      have hp1 := iffPiece_preserves hp hbal hamt
      cases e1 with
      | none =>
        simp at h
        exact ih h hp1.1 hp1.2
      | some e =>
        simp at h
        rw [← h]
        exact hp1

theorem reach_inv {s : Service} (h : Reach s) :
    (∀ a ∈ sl s.accounts, 0 ≤ a.balance) ∧
    (∀ p ∈ sl s.payments, 0 < p.amount) := by
  induction h with
  | init =>
    exact ⟨by intro a ha; exact absurd ha (by simp [zeroService, sl]),
      by intro p hp; exact absurd hp (by simp [zeroService, sl])⟩
  | step hr hstep ih =>
    cases hstep with
    | core op => exact coreStep_preserves _ op ih.1 ih.2
    | importFile content e s2p himp => exact iffPieces_preserves himp ih.1 ih.2

/-- Counterexample to C4 as stated: importing an accounts file whose
balance field is negative produces an account with balance below zero,
because Import parses and stores the balance without any check. -/
theorem c4_import_allows_negative_balance :
    (goImport svcReg1 dirNegBal).map (fun t => (sl t.accounts).map Account.balance)
      = some [0, -5] ∧ ¬ (0 : Int) ≤ -5 := by
  exact ⟨by decide, by decide⟩

theorem intToStr_no_semi (n : Int) : ∀ ch ∈ intToStr n, ch ≠ ';' :=
  fun ch hch => (intToStr_not_sep n ch hch).1

theorem accountToString_no_nl (a : Account)
    (h : ∀ ch ∈ a.phone, ch ≠ '\n') :
    ∀ ch ∈ accountToString a, ch ≠ '\n' := by
  intro ch hch
  unfold accountToString at hch
  rcases List.mem_append.mp hch with h1 | h1
  · rcases List.mem_append.mp h1 with h2 | h2
    · exact (intToStr_not_sep _ ch h2).2.1
    · rcases List.mem_cons.mp h2 with h3 | h3
      · subst h3
        decide
      · exact h ch h3
  · rcases List.mem_cons.mp h1 with h2 | h2
    · subst h2
      decide
    · exact (intToStr_not_sep _ ch h2).2.1

theorem paymentToString_no_nl (p : Payment)
    (hid : ∀ ch ∈ p.id, ch ≠ '\n')
    (hcat : ∀ ch ∈ p.category, ch ≠ '\n')
    (hst : ∀ ch ∈ p.status, ch ≠ '\n') :
    ∀ ch ∈ paymentToString p, ch ≠ '\n' := by
  intro ch hch
  unfold paymentToString at hch
  rcases List.mem_append.mp hch with h1 | h1
  · rcases List.mem_append.mp h1 with h2 | h2
    · rcases List.mem_append.mp h2 with h3 | h3
      · rcases List.mem_append.mp h3 with h4 | h4
        · exact hid ch h4
        · rcases List.mem_cons.mp h4 with h5 | h5
          · subst h5
            decide
          · exact (intToStr_not_sep _ ch h5).2.1
      · rcases List.mem_cons.mp h3 with h4 | h4
        · subst h4
          decide
        · exact (intToStr_not_sep _ ch h4).2.1
    · rcases List.mem_cons.mp h2 with h3 | h3
      · subst h3
        decide
      · exact hcat ch h3
  · rcases List.mem_cons.mp h1 with h2 | h2
    · subst h2
      decide
    · exact hst ch h2

theorem favoriteToString_no_nl (f : Favorite)
    (hid : ∀ ch ∈ f.id, ch ≠ '\n')
    (hname : ∀ ch ∈ f.name, ch ≠ '\n')
    (hcat : ∀ ch ∈ f.category, ch ≠ '\n') :
    ∀ ch ∈ favoriteToString f, ch ≠ '\n' := by
  intro ch hch
  unfold favoriteToString at hch
  rcases List.mem_append.mp hch with h1 | h1
  · rcases List.mem_append.mp h1 with h2 | h2
    · rcases List.mem_append.mp h2 with h3 | h3
      · rcases List.mem_append.mp h3 with h4 | h4
        · exact hid ch h4
        · rcases List.mem_cons.mp h4 with h5 | h5
          · subst h5
            decide
          · exact (intToStr_not_sep _ ch h5).2.1
      · rcases List.mem_cons.mp h3 with h4 | h4
        · subst h4
          decide
        · exact hname ch h4
    · rcases List.mem_cons.mp h2 with h3 | h3
      · subst h3
        decide
      · exact (intToStr_not_sep _ ch h3).2.1
  · rcases List.mem_cons.mp h1 with h2 | h2
    · subst h2
      decide
    · exact hcat ch h2

theorem splitCh_accountToString (a : Account)
    (h : ∀ ch ∈ a.phone, ch ≠ ';') :
    splitCh ';' (accountToString a)
      = [intToStr a.id, a.phone, intToStr a.balance] := by
  unfold accountToString
  exact splitCh_fields3 (intToStr_no_semi a.id) h (intToStr_no_semi a.balance)

theorem splitCh_paymentToString (p : Payment)
    (hid : ∀ ch ∈ p.id, ch ≠ ';')
    (hcat : ∀ ch ∈ p.category, ch ≠ ';')
    (hst : ∀ ch ∈ p.status, ch ≠ ';') :
    splitCh ';' (paymentToString p)
      = [p.id, intToStr p.accountID, intToStr p.amount, p.category, p.status] := by
  unfold paymentToString
  exact splitCh_fields5 hid (intToStr_no_semi p.accountID)
    (intToStr_no_semi p.amount) hcat hst

theorem splitCh_favoriteToString (f : Favorite)
    (hid : ∀ ch ∈ f.id, ch ≠ ';')
    (hname : ∀ ch ∈ f.name, ch ≠ ';')
    (hcat : ∀ ch ∈ f.category, ch ≠ ';') :
    splitCh ';' (favoriteToString f)
      = [f.id, intToStr f.accountID, f.name, intToStr f.amount, f.category] := by
  unfold favoriteToString
  exact splitCh_fields5 hid (intToStr_no_semi f.accountID) hname
    (intToStr_no_semi f.amount) hcat

theorem importAccLine_encode (s : Service) (a : Account)
    (hph : ∀ ch ∈ a.phone, ch ≠ ';')
    (hnotin : (sl s.accounts).find? (fun x => x.id == a.id) = none) :
    importAccLine s (accountToString a) =
      some { s with accounts := some (sl s.accounts ++ [a]),
                    nextAccountID := a.id } := by
  unfold importAccLine
  rw [splitCh_accountToString a hph]
  simp only [goAtoi_intToStr, hnotin]

theorem importPayLine_encode (s : Service) (p : Payment)
    (hid : ∀ ch ∈ p.id, ch ≠ ';')
    (hcat : ∀ ch ∈ p.category, ch ≠ ';')
    (hst : ∀ ch ∈ p.status, ch ≠ ';')
    (hnotin : (sl s.payments).find? (fun x => x.id == p.id) = none) :
    importPayLine s (paymentToString p) =
      some { s with payments := some (sl s.payments ++ [p]) } := by
  unfold importPayLine
  rw [splitCh_paymentToString p hid hcat hst]
  simp only [goAtoi_intToStr, hnotin]

theorem importFavLine_encode (s : Service) (f : Favorite)
    (hid : ∀ ch ∈ f.id, ch ≠ ';')
    (hname : ∀ ch ∈ f.name, ch ≠ ';')
    (hcat : ∀ ch ∈ f.category, ch ≠ ';')
    (hnotin : (sl s.favorites).find? (fun x => x.id == f.id) = none) :
    importFavLine s (favoriteToString f) =
      some { s with
        favorites := some (sl s.favorites ++
          [{ id := genUUID s.uuidSeed, accountID := f.accountID, name := f.name,
             amount := f.amount, category := f.category }]),
        uuidSeed := s.uuidSeed + 1 } := by
  unfold importFavLine
  rw [splitCh_favoriteToString f hid hname hcat]
  simp only [goAtoi_intToStr, hnotin]

theorem importLines_cons_some (f : Service → Str → Option Service)
    (s s1 : Service) (l : Str) (ls : List Str) (h : f s l = some s1) :
    importLines f s (l :: ls) = importLines f s1 ls := by
  rw [show importLines f s (l :: ls)
      = (match f s l with
         | none => none
         | some s1 => importLines f s1 ls) from rfl, h]

theorem importLines_skip_empty (f : Service → Str → Option Service)
    (s : Service) (hf : f s [] = some s) :
    importLines f s [[]] = some s := by
  rw [importLines_cons_some f s s [] [] hf]
  rfl

theorem importLines_accounts (todo : List Account) : ∀ s : Service,
    (∀ a ∈ todo, ∀ ch ∈ a.phone, ch ≠ ';') →
    (∀ a ∈ todo, ∀ b ∈ sl s.accounts, b.id ≠ a.id) →
    (todo.map Account.id).Nodup →
    ∃ s2, importLines importAccLine s (todo.map accountToString ++ [[]]) = some s2 ∧
      sl s2.accounts = sl s.accounts ++ todo ∧
      s2.payments = s.payments ∧ s2.favorites = s.favorites ∧
      s2.uuidSeed = s.uuidSeed := by
  induction todo with
  | nil =>
    intro s _ _ _
    refine ⟨s, ?_, by simp, rfl, rfl, rfl⟩
    exact importLines_skip_empty _ s rfl
  | cons a rest ih =>
    intro s hph hdisj hnodup
    have hnotin : (sl s.accounts).find? (fun x => x.id == a.id) = none := by
      rw [List.find?_eq_none]
      intro b hb
      simp only [beq_iff_eq]
      exact fun he => hdisj a (List.mem_cons_self _ _) b hb he
    have hline := importAccLine_encode s a
      (hph a (List.mem_cons_self _ _)) hnotin
    rw [List.map_cons, List.cons_append, importLines_cons_some _ _ _ _ _ hline]
    rw [List.map_cons, List.nodup_cons] at hnodup
    obtain ⟨hna, hnodup2⟩ := hnodup
    obtain ⟨s2, hrun, hacc, hpay, hfav, hseed⟩ :=
      ih { s with accounts := some (sl s.accounts ++ [a]), nextAccountID := a.id }
        (fun x hx => hph x (List.mem_cons_of_mem _ hx))
        (by
          intro x hx b hb
          rw [sl_some] at hb
          rcases List.mem_append.mp hb with h1 | h1
          · exact hdisj x (List.mem_cons_of_mem _ hx) b h1
          · rw [List.mem_singleton] at h1
            subst h1
            intro he
            exact hna (he ▸ List.mem_map_of_mem Account.id hx))
        hnodup2
    refine ⟨s2, hrun, ?_, hpay, hfav, hseed⟩
    rw [hacc, sl_some, List.append_assoc]
    rfl

theorem importLines_payments (todo : List Payment) : ∀ s : Service,
    (∀ p ∈ todo, ∀ ch ∈ p.id, ch ≠ ';') →
    (∀ p ∈ todo, ∀ ch ∈ p.category, ch ≠ ';') →
    (∀ p ∈ todo, ∀ ch ∈ p.status, ch ≠ ';') →
    (∀ p ∈ todo, ∀ q ∈ sl s.payments, q.id ≠ p.id) →
    (todo.map Payment.id).Nodup →
    ∃ s2, importLines importPayLine s (todo.map paymentToString ++ [[]]) = some s2 ∧
      sl s2.payments = sl s.payments ++ todo ∧
      s2.accounts = s.accounts ∧ s2.nextAccountID = s.nextAccountID ∧
      s2.favorites = s.favorites ∧ s2.uuidSeed = s.uuidSeed := by
  induction todo with
  | nil =>
    intro s _ _ _ _ _
    refine ⟨s, ?_, by simp, rfl, rfl, rfl, rfl⟩
    exact importLines_skip_empty _ s rfl
  | cons p rest ih =>
    intro s hid hcat hst hdisj hnodup
    have hnotin : (sl s.payments).find? (fun x => x.id == p.id) = none := by
      rw [List.find?_eq_none]
      intro q hq
      simp only [beq_iff_eq]
      exact fun he => hdisj p (List.mem_cons_self _ _) q hq he
    have hline := importPayLine_encode s p
      (hid p (List.mem_cons_self _ _)) (hcat p (List.mem_cons_self _ _))
      (hst p (List.mem_cons_self _ _)) hnotin
    rw [List.map_cons, List.cons_append, importLines_cons_some _ _ _ _ _ hline]
    rw [List.map_cons, List.nodup_cons] at hnodup
    obtain ⟨hnp, hnodup2⟩ := hnodup
    obtain ⟨s2, hrun, hpays, hacc, hcnt, hfav, hseed⟩ :=
      ih { s with payments := some (sl s.payments ++ [p]) }
        (fun x hx => hid x (List.mem_cons_of_mem _ hx))
        (fun x hx => hcat x (List.mem_cons_of_mem _ hx))
        (fun x hx => hst x (List.mem_cons_of_mem _ hx))
        (by
          intro x hx q hq
          rw [sl_some] at hq
          rcases List.mem_append.mp hq with h1 | h1
          · exact hdisj x (List.mem_cons_of_mem _ hx) q h1
          · rw [List.mem_singleton] at h1
            subst h1
            intro he
            exact hnp (he ▸ List.mem_map_of_mem Payment.id hx))
        hnodup2
    refine ⟨s2, hrun, ?_, hacc, hcnt, hfav, hseed⟩
    rw [hpays, sl_some, List.append_assoc]
    rfl

theorem importLines_favorites (todo : List Favorite) : ∀ s : Service,
    (∀ f ∈ todo, ∀ ch ∈ f.id, ch ≠ ';') →
    (∀ f ∈ todo, ∀ ch ∈ f.name, ch ≠ ';') →
    (∀ f ∈ todo, ∀ ch ∈ f.category, ch ≠ ';') →
    (∀ f ∈ todo, ∀ g ∈ sl s.favorites, g.id ≠ f.id) →
    (∀ f ∈ todo, ∀ j : Nat, f.id ≠ genUUID j) →
    ∃ s2, importLines importFavLine s (todo.map favoriteToString ++ [[]]) = some s2 ∧
      (sl s2.favorites).map stripFav = (sl s.favorites).map stripFav
        ++ todo.map stripFav ∧
      (∀ g ∈ sl s2.favorites, g ∈ sl s.favorites ∨ ∃ j : Nat, g.id = genUUID j) ∧
      s2.accounts = s.accounts ∧ s2.nextAccountID = s.nextAccountID ∧
      s2.payments = s.payments := by
  induction todo with
  | nil =>
    intro s _ _ _ _ _
    refine ⟨s, ?_, by simp, fun g hg => Or.inl hg, rfl, rfl, rfl⟩
    exact importLines_skip_empty _ s rfl
  | cons f rest ih =>
    intro s hid hname hcat hdisj hgen
    have hnotin : (sl s.favorites).find? (fun x => x.id == f.id) = none := by
      rw [List.find?_eq_none]
      intro g hg
      simp only [beq_iff_eq]
      exact fun he => hdisj f (List.mem_cons_self _ _) g hg he
    have hline := importFavLine_encode s f
      (hid f (List.mem_cons_self _ _)) (hname f (List.mem_cons_self _ _))
      (hcat f (List.mem_cons_self _ _)) hnotin
    rw [List.map_cons, List.cons_append, importLines_cons_some _ _ _ _ _ hline]
    obtain ⟨s2, hrun, hstrip, hids, hacc, hcnt, hpay⟩ :=
      ih { s with
          favorites := some (sl s.favorites ++
            [{ id := genUUID s.uuidSeed, accountID := f.accountID, name := f.name,
               amount := f.amount, category := f.category }]),
          uuidSeed := s.uuidSeed + 1 }
        (fun x hx => hid x (List.mem_cons_of_mem _ hx))
        (fun x hx => hname x (List.mem_cons_of_mem _ hx))
        (fun x hx => hcat x (List.mem_cons_of_mem _ hx))
        (by
          intro x hx g hg
          rw [sl_some] at hg
          rcases List.mem_append.mp hg with h1 | h1
          · exact hdisj x (List.mem_cons_of_mem _ hx) g h1
          · rw [List.mem_singleton] at h1
            subst h1
            intro he
            exact hgen x (List.mem_cons_of_mem _ hx) s.uuidSeed he.symm)
        (fun x hx => hgen x (List.mem_cons_of_mem _ hx))
    refine ⟨s2, hrun, ?_, ?_, hacc, hcnt, hpay⟩
    · rw [hstrip, sl_some, List.map_append, List.map_cons, List.append_assoc]
      rfl
    · intro g hg
      rcases hids g hg with h1 | h1
      · rw [sl_some] at h1
        rcases List.mem_append.mp h1 with h2 | h2
        · exact Or.inl h2
        · rw [List.mem_singleton] at h2
          subst h2
          exact Or.inr ⟨s.uuidSeed, rfl⟩
      · exact Or.inr h1

theorem goExport_accountsDump (s1 : Service) :
    readDump (goExport s1 emptyDir).accountsDump
      = encodeAll accountToString (sl s1.accounts) := by
  unfold goExport
  by_cases h1 : (sl s1.accounts).length > 0
  · by_cases h2 : (sl s1.favorites).length > 0 <;>
      by_cases h3 : (sl s1.payments).length > 0 <;>
        simp [h1, h2, h3, readDump]
  · have he : sl s1.accounts = [] := List.length_eq_zero.mp (by omega)
    by_cases h2 : (sl s1.favorites).length > 0 <;>
      by_cases h3 : (sl s1.payments).length > 0 <;>
        simp [h1, h2, h3, readDump, emptyDir, he, encodeAll]

theorem goExport_paymentsDump (s1 : Service) :
    readDump (goExport s1 emptyDir).paymentsDump
      = encodeAll paymentToString (sl s1.payments) := by
  unfold goExport
  by_cases h3 : (sl s1.payments).length > 0
  · by_cases h1 : (sl s1.accounts).length > 0 <;>
      by_cases h2 : (sl s1.favorites).length > 0 <;>
        simp [h1, h2, h3, readDump]
  · have he : sl s1.payments = [] := List.length_eq_zero.mp (by omega)
    by_cases h1 : (sl s1.accounts).length > 0 <;>
      by_cases h2 : (sl s1.favorites).length > 0 <;>
        simp [h1, h2, h3, readDump, emptyDir, he, encodeAll]

theorem goExport_favoritesDump (s1 : Service) :
    readDump (goExport s1 emptyDir).favoritesDump
      = encodeAll favoriteToString (sl s1.favorites) := by
  unfold goExport
  by_cases h2 : (sl s1.favorites).length > 0
  · by_cases h1 : (sl s1.accounts).length > 0 <;>
      by_cases h3 : (sl s1.payments).length > 0 <;>
        simp [h1, h2, h3, readDump]
  · have he : sl s1.favorites = [] := List.length_eq_zero.mp (by omega)
    by_cases h1 : (sl s1.accounts).length > 0 <;>
      by_cases h3 : (sl s1.payments).length > 0 <;>
        simp [h1, h2, h3, readDump, emptyDir, he, encodeAll]

theorem goImport_phases (s : Service) (d : Dir) (sA sB sC : Service)
    (l0 : List Account) (l1 : List Payment) (l2 : List Favorite)
    (h0 : s.accounts = some l0)
    (hA : importLines importAccLine s (splitCh '\n' (readDump d.accountsDump))
      = some sA)
    (h1 : sA.payments = some l1)
    (hB : importLines importPayLine sA (splitCh '\n' (readDump d.paymentsDump))
      = some sB)
    (h2 : sB.favorites = some l2)
    (hC : importLines importFavLine sB (splitCh '\n' (readDump d.favoritesDump))
      = some sC) :
    goImport s d = some sC := by
  simp only [goImport, h0, hA, h1, hB, h2, hC]

/-- C6 amended: Export to an empty directory followed by Import into a
fresh store whose three collections are initialized but empty (not the
nil slices of the zero value) reproduces the accounts and payments
exactly and the favorites up to a freshly generated identifier. The
hypotheses require the stored strings to avoid the two separator
characters, account and payment identifiers to be duplicate-free, and
favorite identifiers to avoid the generated-identifier range, the
collision-freedom real uuids provide. -/
theorem c6_roundtrip_into_initialized_store (s1 : Service) (n : Nat)
    (hph : ∀ a ∈ sl s1.accounts, ∀ ch ∈ a.phone, ch ≠ ';' ∧ ch ≠ '\n')
    (hpid : ∀ p ∈ sl s1.payments, ∀ ch ∈ p.id, ch ≠ ';' ∧ ch ≠ '\n')
    (hpcat : ∀ p ∈ sl s1.payments, ∀ ch ∈ p.category, ch ≠ ';' ∧ ch ≠ '\n')
    (hpst : ∀ p ∈ sl s1.payments, ∀ ch ∈ p.status, ch ≠ ';' ∧ ch ≠ '\n')
    (hfid : ∀ f ∈ sl s1.favorites, ∀ ch ∈ f.id, ch ≠ ';' ∧ ch ≠ '\n')
    (hfname : ∀ f ∈ sl s1.favorites, ∀ ch ∈ f.name, ch ≠ ';' ∧ ch ≠ '\n')
    (hfcat : ∀ f ∈ sl s1.favorites, ∀ ch ∈ f.category, ch ≠ ';' ∧ ch ≠ '\n')
    (haid : ((sl s1.accounts).map Account.id).Nodup)
    (hpidn : ((sl s1.payments).map Payment.id).Nodup)
    (hfgen : ∀ f ∈ sl s1.favorites, ∀ j : Nat, f.id ≠ genUUID j) :
    ∃ s2, goImport
        { nextAccountID := 0, accounts := some [], payments := some [],
          favorites := some [], uuidSeed := n } (goExport s1 emptyDir) = some s2 ∧
      sl s2.accounts = sl s1.accounts ∧
      sl s2.payments = sl s1.payments ∧
      (sl s2.favorites).map stripFav = (sl s1.favorites).map stripFav ∧
      (∀ g ∈ sl s2.favorites, ∃ j : Nat, g.id = genUUID j) := by
  obtain ⟨sA, hrunA, haccA, hpayA, hfavA, hseedA⟩ :=
    importLines_accounts (sl s1.accounts)
      { nextAccountID := 0, accounts := some [], payments := some [],
        favorites := some [], uuidSeed := n }
      (fun a ha ch hch => (hph a ha ch hch).1)
      (by
        intro a _ b hb
        rw [sl_some] at hb
        exact absurd hb (List.not_mem_nil b))
      haid
  have hlinesA : splitCh '\n' (readDump (goExport s1 emptyDir).accountsDump)
      = (sl s1.accounts).map accountToString ++ [[]] := by
    rw [goExport_accountsDump]
    exact splitCh_encodeAll accountToString _
      (fun a ha => accountToString_no_nl a (fun ch hch => (hph a ha ch hch).2))
  obtain ⟨sB, hrunB, hpayB, haccB, hcntB, hfavB, hseedB⟩ :=
    importLines_payments (sl s1.payments) sA
      (fun p hp ch hch => (hpid p hp ch hch).1)
      (fun p hp ch hch => (hpcat p hp ch hch).1)
      (fun p hp ch hch => (hpst p hp ch hch).1)
      (by
        intro p _ q hq
        rw [hpayA] at hq
        exact absurd hq (List.not_mem_nil q))
      hpidn
  have hlinesB : splitCh '\n' (readDump (goExport s1 emptyDir).paymentsDump)
      = (sl s1.payments).map paymentToString ++ [[]] := by
    rw [goExport_paymentsDump]
    exact splitCh_encodeAll paymentToString _
      (fun p hp => paymentToString_no_nl p
        (fun ch hch => (hpid p hp ch hch).2)
        (fun ch hch => (hpcat p hp ch hch).2)
        (fun ch hch => (hpst p hp ch hch).2))
  obtain ⟨sC, hrunC, hstripC, hidsC, haccC, hcntC, hpayC⟩ :=
    importLines_favorites (sl s1.favorites) sB
      (fun f hf ch hch => (hfid f hf ch hch).1)
      (fun f hf ch hch => (hfname f hf ch hch).1)
      (fun f hf ch hch => (hfcat f hf ch hch).1)
      (by
        intro f _ g hg
        rw [hfavB, hfavA] at hg
        exact absurd hg (List.not_mem_nil g))
      hfgen
  have hlinesC : splitCh '\n' (readDump (goExport s1 emptyDir).favoritesDump)
      = (sl s1.favorites).map favoriteToString ++ [[]] := by
    rw [goExport_favoritesDump]
    exact splitCh_encodeAll favoriteToString _
      (fun f hf => favoriteToString_no_nl f
        (fun ch hch => (hfid f hf ch hch).2)
        (fun ch hch => (hfname f hf ch hch).2)
        (fun ch hch => (hfcat f hf ch hch).2))
  refine ⟨sC, ?_, ?_, ?_, ?_, ?_⟩
  · refine goImport_phases _ _ sA sB sC [] [] [] rfl ?_ hpayA ?_ ?_ ?_
    · rw [hlinesA]
      exact hrunA
    · rw [hlinesB]
      exact hrunB
    · rw [hfavB]
      exact hfavA
    · rw [hlinesC]
      exact hrunC
  · rw [haccC, haccB, haccA]
    rfl
  · rw [hpayC, hpayB, hpayA]
    rfl
  · rw [hstripC, hfavB, hfavA]
    rfl
  · intro g hg
    rcases hidsC g hg with h1 | h1
    · rw [hfavB, hfavA] at h1
      exact absurd h1 (List.not_mem_nil g)
    · exact h1

/-- Witness for the amended C6: a store with one account, one payment and
one favorite round-trips into an initialized fresh store. -/
theorem c6_roundtrip_into_initialized_store_witness :
    ∃ s2, goImport freshSvc (goExport svcRoundTrip emptyDir) = some s2 ∧
      sl s2.accounts = sl svcRoundTrip.accounts ∧
      sl s2.payments = sl svcRoundTrip.payments ∧
      (sl s2.favorites).map stripFav = (sl svcRoundTrip.favorites).map stripFav ∧
      (∀ g ∈ sl s2.favorites, ∃ j : Nat, g.id = genUUID j) := by
  refine c6_roundtrip_into_initialized_store svcRoundTrip 0 (by decide) (by decide)
    (by decide) (by decide) (by decide) (by decide) (by decide) (by decide)
    (by decide) ?_
  intro f hf j he
  rw [show sl svcRoundTrip.favorites
      = [{ id := ['f','1'], accountID := 1, name := ['n','m'],
           amount := 5, category := catFood }] from rfl, List.mem_singleton] at hf
  subst hf
  unfold genUUID at he
  injection he with h1 h2
  exact absurd h1 (by decide)

/-- Counterexample to C6 as stated: a fresh store in Go is the zero value,
whose three slices are nil, and Import into it reads nothing, so the
round trip loses every account instead of reproducing the store. -/
theorem c6_roundtrip_into_zero_store_loses_data :
    goImport zeroService (goExport svcRoundTrip emptyDir) = some zeroService ∧
    sl zeroService.accounts = [] ∧ sl svcRoundTrip.accounts ≠ [] := by
  exact ⟨rfl, rfl, by decide⟩

theorem wrap64_eq_self {x : Int} (h1 : minInt64 ≤ x) (h2 : x ≤ maxInt64) :
    wrap64 x = x := by
  unfold wrap64
  unfold minInt64 at h1
  unfold maxInt64 at h2
  rw [Int.emod_eq_of_lt (by omega) (by omega)]
  omega

theorem inRange64_elim {x : Int} (h : inRange64 x = true) :
    minInt64 ≤ x ∧ x ≤ maxInt64 := by
  unfold inRange64 at h
  rw [Bool.and_eq_true, decide_eq_true_eq, decide_eq_true_eq] at h
  exact h

theorem wrap64_eq_of_inRange {x : Int} (h : inRange64 x = true) :
    wrap64 x = x :=
  wrap64_eq_self (inRange64_elim h).1 (inRange64_elim h).2

theorem updateFirst_congr {p : α → Bool} {f g : α → α} {l : List α} {a : α}
    (hfind : l.find? p = some a) (hfg : f a = g a) :
    updateFirst p f l = updateFirst p g l := by
  induction l with
  | nil => rfl
  | cons x xs ih =>
    cases hx : p x with
    | true =>
      rw [List.find?_cons_of_pos _ hx] at hfind
      obtain rfl : x = a := by simpa using hfind
      rw [updateFirst_cons_pos hx, updateFirst_cons_pos hx, hfg]
    | false =>
      rw [List.find?_cons_of_neg _ (by simp [hx])] at hfind
      rw [updateFirst_cons_neg hx, updateFirst_cons_neg hx, ih hfind]

theorem updateLast_congr {p : α → Bool} {f g : α → α} {l : List α} {a : α}
    (hfind : goFindLast p l = some a) (hfg : f a = g a) :
    updateLast p f l = updateLast p g l := by
  unfold updateLast
  unfold goFindLast at hfind
  rw [updateFirst_congr hfind hfg]

theorem goRegisterAccountW_eq (s : Service) (ph : Str)
    (h : inRange64 (s.nextAccountID + 1) = true) :
    goRegisterAccountW s ph = goRegisterAccount s ph := by
  unfold goRegisterAccountW goRegisterAccount
  rw [wrap64_eq_of_inRange h]

theorem goDepositW_eq (s : Service) (aid : Int) (m : Money)
    (h : ∀ acc, goFindLast (fun a => a.id == aid) (sl s.accounts) = some acc →
      ¬ m ≤ 0 → inRange64 (acc.balance + m) = true) :
    goDepositW s aid m = goDeposit s aid m := by
  by_cases hneg : m ≤ 0
  · simp [goDepositW, goDeposit, hneg]
  · cases hf : goFindLast (fun a => a.id == aid) (sl s.accounts) with
    | none => simp [goDepositW, goDeposit, hneg, hf]
    | some acc =>
      simp only [goDepositW, goDeposit, if_neg hneg, hf]
      rw [@updateLast_congr Account (fun a => a.id == aid)
        (fun a => { a with balance := wrap64 (a.balance + m) })
        (fun a => { a with balance := a.balance + m })
        (sl s.accounts) acc hf
        (by simp only [wrap64_eq_of_inRange (h acc hf hneg)])]

theorem goPayW_eq (s : Service) (aid : Int) (m : Money) (cat : Str)
    (h : ∀ acc, goFindLast (fun a => a.id == aid) (sl s.accounts) = some acc →
      ¬ m ≤ 0 → ¬ acc.balance < m → inRange64 (acc.balance - m) = true) :
    goPayW s aid m cat = goPay s aid m cat := by
  by_cases hneg : m ≤ 0
  · simp [goPayW, goPay, hneg]
  · cases hf : goFindLast (fun a => a.id == aid) (sl s.accounts) with
    | none => simp [goPayW, goPay, hneg, hf]
    | some acc =>
      by_cases hlt : acc.balance < m
      · simp [goPayW, goPay, hneg, hf, hlt]
      · simp only [goPayW, goPay, if_neg hneg, hf, if_neg hlt]
        rw [@updateLast_congr Account (fun a => a.id == aid)
          (fun a => { a with balance := wrap64 (a.balance - m) })
          (fun a => { a with balance := a.balance - m })
          (sl s.accounts) acc hf
          (by simp only [wrap64_eq_of_inRange (h acc hf hneg hlt)])]

theorem goPayW_eq_of_payWrapFree (s : Service) (aid : Int) (m : Money) (cat : Str)
    (h : payWrapFree s aid m = true) :
    goPayW s aid m cat = goPay s aid m cat := by
  apply goPayW_eq
  intro acc hf hneg hlt
  simp only [payWrapFree, if_neg hneg, hf, if_neg hlt] at h
  exact h

theorem goRejectW_eq (s : Service) (pid : Str)
    (h : ∀ p a, goFindPaymentByID s pid = some p →
      goFindAccountByID s p.accountID = some a →
      inRange64 (a.balance + p.amount) = true) :
    goRejectW s pid = goReject s pid := by
  cases hp : goFindPaymentByID s pid with
  | none => simp [goRejectW, goReject, hp]
  | some p =>
    cases ha : goFindAccountByID s p.accountID with
    | none => simp [goRejectW, goReject, hp, ha]
    | some a =>
      simp only [goRejectW, goReject, hp, ha]
      have ha2 : (sl s.accounts).find? (fun x => x.id == p.accountID) = some a := ha
      rw [@updateFirst_congr Account (fun x => x.id == p.accountID)
        (fun x => { x with balance := wrap64 (x.balance + p.amount) })
        (fun x => { x with balance := x.balance + p.amount })
        (sl s.accounts) a ha2
        (by simp only [wrap64_eq_of_inRange (h p a hp ha)])]

theorem applyCoreW_eq (s : Service) (op : CoreOp)
    (h : wrapFreeOp s op = true) :
    applyCoreW s op = applyCore s op := by
  cases op with
  | register ph =>
    simp only [wrapFreeOp] at h
    simp only [applyCoreW, applyCore, goRegisterAccountW_eq s ph h]
  | deposit aid m =>
    have hd : goDepositW s aid m = goDeposit s aid m := by
      apply goDepositW_eq
      intro acc hf hneg
      simp only [wrapFreeOp, if_neg hneg, hf] at h
      exact h
    simp only [applyCoreW, applyCore, hd]
  | pay aid m cat =>
    simp only [wrapFreeOp] at h
    simp only [applyCoreW, applyCore, goPayW_eq_of_payWrapFree s aid m cat h]
  | reject pid =>
    have hr : goRejectW s pid = goReject s pid := by
      apply goRejectW_eq
      intro p a hp ha
      simp only [wrapFreeOp, hp, ha] at h
      exact h
    simp only [applyCoreW, applyCore, hr]
  | repeatPay pid =>
    cases hp : goFindPaymentByID s pid with
    | none => simp [applyCoreW, applyCore, goRepeatW, goRepeat, hp]
    | some p =>
      simp only [wrapFreeOp, hp] at h
      simp only [applyCoreW, applyCore, goRepeatW, goRepeat, hp,
        goPayW_eq_of_payWrapFree s p.accountID p.amount p.category h]
  | favoritePayment pid name => rfl
  | payFromFavorite fid =>
    cases hf : goFindFavoriteByID s fid with
    | none => simp [applyCoreW, applyCore, goPayFromFavoriteW, goPayFromFavorite, hf]
    | some f =>
      simp only [wrapFreeOp, hf] at h
      simp only [applyCoreW, applyCore, goPayFromFavoriteW, goPayFromFavorite, hf,
        goPayW_eq_of_payWrapFree s f.accountID f.amount f.category h]

theorem coreStepW_eq (s : Service) (op : CoreOp)
    (h : wrapFreeOp s op = true) : coreStepW s op = coreStep s op := by
  unfold coreStepW coreStep
  rw [applyCoreW_eq s op h]

theorem depDeltaW_eq (s : Service) (op : CoreOp)
    (h : wrapFreeOp s op = true) : depDeltaW s op = depDelta s op := by
  cases op with
  | deposit aid m =>
    have hd : goDepositW s aid m = goDeposit s aid m := by
      apply goDepositW_eq
      intro acc hf hneg
      simp only [wrapFreeOp, if_neg hneg, hf] at h
      exact h
    simp only [depDeltaW, depDelta, hd]
  | register ph => rfl
  | pay aid m cat => rfl
  | reject pid => rfl
  | repeatPay pid => rfl
  | favoritePayment pid name => rfl
  | payFromFavorite fid => rfl

theorem runCoreW_eq (ops : List CoreOp) : ∀ s : Service,
    wrapFreeTrace s ops = true →
    runCoreW s ops = runCore s ops ∧ totalDepW s ops = totalDep s ops ∧
    safeTraceW s ops = safeTrace s ops := by
  induction ops with
  | nil => exact fun s _ => ⟨rfl, rfl, rfl⟩
  | cons op ops ih =>
    intro s h
    rw [wrapFreeTrace, Bool.and_eq_true] at h
    obtain ⟨h1, h2⟩ := h
    have hstep := coreStepW_eq s op h1
    obtain ⟨e1, e2, e3⟩ := ih (coreStepW s op) h2
    refine ⟨?_, ?_, ?_⟩
    · rw [runCoreW, runCore, e1, hstep]
    · rw [totalDepW, totalDep, e2, hstep, depDeltaW_eq s op h1]
    · rw [safeTraceW, safeTrace, e3, hstep]

/-- C3 amended: along every trace of the seven ledger-store operations
from the empty store in which no Reject targets a payment that is no
longer INPROGRESS and every balance update stays within int64, the
sum of account balances plus the amounts of INPROGRESS payments under
the wrap-aware semantics equals the sum of all successful deposits.
The first guard is forced by the unguarded double credit of Reject,
the second by int64 overflow of the balance arithmetic. -/
theorem c3_conservation_on_guarded_traces (ops : List CoreOp)
    (hsafe : safeTraceW zeroService ops = true)
    (hwf : wrapFreeTrace zeroService ops = true) :
    sumBal (runCoreW zeroService ops) + sumInProg (runCoreW zeroService ops)
      = totalDepW zeroService ops := by
  obtain ⟨e1, e2, e3⟩ := runCoreW_eq ops zeroService hwf
  rw [e1, e2]
  rw [e3] at hsafe
  rw [runCore_energy ops zeroService hsafe]
  show (0 : Int) + 0 + totalDep zeroService ops = totalDep zeroService ops
  ring

/-- Witness for the amended C3: register, deposit 10, pay 5, reject once
is a guarded wrap-free trace and conserves the deposited total. -/
theorem c3_conservation_on_guarded_traces_witness :
    sumBal (runCoreW zeroService opsGuarded)
      + sumInProg (runCoreW zeroService opsGuarded)
      = totalDepW zeroService opsGuarded :=
  c3_conservation_on_guarded_traces opsGuarded (by decide) (by decide)

theorem coreStepW_register (s : Service) (ph : Str) :
    coreStepW s (.register ph) = (goRegisterAccountW s ph).2 := by
  rcases h : goRegisterAccountW s ph with ⟨r, s2⟩
  cases r <;> simp [coreStepW, applyCoreW, h]

theorem coreStepW_deposit (s : Service) (aid : Int) (m : Money) :
    coreStepW s (.deposit aid m) = (goDepositW s aid m).2 := by
  rcases h : goDepositW s aid m with ⟨r, s2⟩
  cases r <;> simp [coreStepW, applyCoreW, h]

theorem coreStepW_pay (s : Service) (aid : Int) (m : Money) (cat : Str) :
    coreStepW s (.pay aid m cat) = (goPayW s aid m cat).2 := by
  rcases h : goPayW s aid m cat with ⟨r, s2⟩
  cases r <;> simp [coreStepW, applyCoreW, h]

theorem coreStepW_reject (s : Service) (pid : Str) :
    coreStepW s (.reject pid) = (goRejectW s pid).2 := by
  rcases h : goRejectW s pid with ⟨r, s2⟩
  cases r <;> simp [coreStepW, applyCoreW, h]

theorem coreStepW_repeatPay (s : Service) (pid : Str) :
    coreStepW s (.repeatPay pid) = (goRepeatW s pid).2 := by
  rcases h : goRepeatW s pid with ⟨r, s2⟩
  cases r <;> simp [coreStepW, applyCoreW, h]

theorem coreStepW_favoritePayment (s : Service) (pid name : Str) :
    coreStepW s (.favoritePayment pid name) = (goFavoritePayment s pid name).2 := by
  rcases h : goFavoritePayment s pid name with ⟨r, s2⟩
  cases r <;> simp [coreStepW, applyCoreW, h]

theorem coreStepW_payFromFavorite (s : Service) (fid : Str) :
    coreStepW s (.payFromFavorite fid) = (goPayFromFavoriteW s fid).2 := by
  rcases h : goPayFromFavoriteW s fid with ⟨r, s2⟩
  cases r <;> simp [coreStepW, applyCoreW, h]

theorem goDepositW_counter (s : Service) (aid : Int) (m : Money) :
    (goDepositW s aid m).2.nextAccountID = s.nextAccountID := by
  by_cases hneg : m ≤ 0
  · simp [goDepositW, hneg]
  · cases hf : goFindLast (fun a => a.id == aid) (sl s.accounts) with
    | none => simp [goDepositW, hneg, hf]
    | some acc => simp [goDepositW, hneg, hf]

theorem goPayW_counter (s : Service) (aid : Int) (m : Money) (cat : Str) :
    (goPayW s aid m cat).2.nextAccountID = s.nextAccountID := by
  by_cases hneg : m ≤ 0
  · simp [goPayW, hneg]
  · cases hf : goFindLast (fun a => a.id == aid) (sl s.accounts) with
    | none => simp [goPayW, hneg, hf]
    | some acc =>
      by_cases hlt : acc.balance < m
      · simp [goPayW, hneg, hf, hlt]
      · simp [goPayW, hneg, hf, hlt]

theorem goRejectW_counter (s : Service) (pid : Str) :
    (goRejectW s pid).2.nextAccountID = s.nextAccountID := by
  cases hp : goFindPaymentByID s pid with
  | none => simp [goRejectW, hp]
  | some p =>
    cases ha : goFindAccountByID s p.accountID with
    | none => simp [goRejectW, hp, ha]
    | some acc => simp [goRejectW, hp, ha]

theorem goRepeatW_counter (s : Service) (pid : Str) :
    (goRepeatW s pid).2.nextAccountID = s.nextAccountID := by
  cases hp : goFindPaymentByID s pid with
  | none => simp [goRepeatW, hp]
  | some p => simp [goRepeatW, hp, goPayW_counter]

theorem goPayFromFavoriteW_counter (s : Service) (fid : Str) :
    (goPayFromFavoriteW s fid).2.nextAccountID = s.nextAccountID := by
  cases hf : goFindFavoriteByID s fid with
  | none => simp [goPayFromFavoriteW, hf]
  | some f => simp [goPayFromFavoriteW, hf, goPayW_counter]

/-- C7 amended: under the wrap-aware int64 semantics, no single
ledger-store operation decreases the next-account-ID counter as long
as the counter is a representable value below MaxInt64, and
RegisterAccount then assigns exactly the successor of the counter, so
registrations from a fresh store are sequential from 1; at MaxInt64 a
further registration wraps the int64 counter to MinInt64, and Import
sets the counter directly to the identifier of the last account it
appended, which can be below both the previous counter and the
maximum imported identifier, so identifiers can be reused. -/
theorem c7_counter_monotone_without_import :
    (∀ s : Service, ∀ op : CoreOp, minInt64 ≤ s.nextAccountID →
      s.nextAccountID < maxInt64 →
      s.nextAccountID ≤ (coreStepW s op).nextAccountID) ∧
    (∀ s : Service, ∀ ph : Str, ∀ a : Account, ∀ s2 : Service,
      minInt64 ≤ s.nextAccountID → s.nextAccountID < maxInt64 →
      goRegisterAccountW s ph = (.ok a, s2) →
      a.id = s.nextAccountID + 1 ∧ s2.nextAccountID = s.nextAccountID + 1) := by
  constructor
  · intro s op hmin hmax
    cases op with
    | register ph =>
      rw [coreStepW_register]
      by_cases hc : (sl s.accounts).any (fun a => a.phone == ph)
      · simp [goRegisterAccountW, hc]
      · simp only [goRegisterAccountW, hc, Bool.false_eq_true, if_false]
        show s.nextAccountID ≤ wrap64 (s.nextAccountID + 1)
        rw [wrap64_eq_self (le_trans hmin (by omega)) (by omega)]
        omega
    | deposit aid m => rw [coreStepW_deposit, goDepositW_counter]
    | pay aid m cat => rw [coreStepW_pay, goPayW_counter]
    | reject pid => rw [coreStepW_reject, goRejectW_counter]
    | repeatPay pid => rw [coreStepW_repeatPay, goRepeatW_counter]
    | favoritePayment pid name =>
      rw [coreStepW_favoritePayment, goFavoritePayment_counter]
    | payFromFavorite fid =>
      rw [coreStepW_payFromFavorite, goPayFromFavoriteW_counter]
  · intro s ph a s2 hmin hmax h
    have hw : wrap64 (s.nextAccountID + 1) = s.nextAccountID + 1 :=
      wrap64_eq_self (le_trans hmin (by omega)) (by omega)
    by_cases hc : (sl s.accounts).any (fun x => x.phone == ph)
    · simp [goRegisterAccountW, hc] at h
    · simp only [goRegisterAccountW, hc, Bool.false_eq_true, if_false,
        Prod.mk.injEq, Except.ok.injEq] at h
      obtain ⟨ha, hs⟩ := h
      refine ⟨?_, ?_⟩
      · rw [← ha]
        exact hw
      · rw [← hs]
        exact hw

/-- Witness for the amended C7: registering on the zero store, whose
counter 0 is in range, does not decrease the counter. -/
theorem c7_counter_monotone_without_import_witness :
    zeroService.nextAccountID ≤
      (coreStepW zeroService (CoreOp.register phoneP)).nextAccountID :=
  c7_counter_monotone_without_import.1 zeroService
    (CoreOp.register phoneP) (by decide) (by decide)

theorem goReject_round (t : Service) (pid : Str) (P : Payment) (A : Account)
    (aid : Int)
    (hfp : goFindPaymentByID t pid = some P)
    (hP : P.accountID = aid)
    (hnodupT : ((sl t.accounts).map Account.id).Nodup)
    (hfL : goFindLast (fun a => a.id == aid) (sl t.accounts) = some A) :
    ∃ t2, goReject t pid = (.ok (), t2) ∧
      goFindPaymentByID t2 pid = some { P with status := statusFail } ∧
      statusOf t2 pid = some statusFail ∧
      ((sl t2.accounts).map Account.id).Nodup ∧
      goFindLast (fun a => a.id == aid) (sl t2.accounts)
        = some { A with balance := A.balance + P.amount } ∧
      balanceOf t2 aid = some (A.balance + P.amount) := by
  have hfa : goFindAccountByID t P.accountID = some A := by
    unfold goFindAccountByID
    rw [hP, find?_eq_goFindLast_of_nodup Account.id aid hnodupT]
    exact hfL
  have hrej := goReject_eq hfp hfa
  have h1 : goFindPaymentByID
      { t with
        payments := some (updateFirst (fun q => q.id == pid)
          (fun q => { q with status := statusFail }) (sl t.payments)),
        accounts := some (updateFirst (fun a => a.id == P.accountID)
          (fun a => { a with balance := a.balance + P.amount }) (sl t.accounts)) }
      pid = some { P with status := statusFail } := by
    show (updateFirst (fun q => q.id == pid)
      (fun q => { q with status := statusFail }) (sl t.payments)).find?
        (fun q => q.id == pid) = _
    rw [@find?_updateFirst Payment (fun q => q.id == pid)
      (fun q => { q with status := statusFail }) (sl t.payments) (fun q => rfl)]
    unfold goFindPaymentByID at hfp
    rw [hfp]
    rfl
  have h4 : ((sl ({ t with
        payments := some (updateFirst (fun q => q.id == pid)
          (fun q => { q with status := statusFail }) (sl t.payments)),
        accounts := some (updateFirst (fun a => a.id == P.accountID)
          (fun a => { a with balance := a.balance + P.amount }) (sl t.accounts)) }
      : Service).accounts).map Account.id).Nodup := by
    show ((updateFirst (fun a => a.id == P.accountID)
      (fun a => { a with balance := a.balance + P.amount })
      (sl t.accounts)).map Account.id).Nodup
    rw [@map_key_updateFirst Account Int Account.id
      (fun a => a.id == P.accountID)
      (fun a => { a with balance := a.balance + P.amount })
      (sl t.accounts) (fun a => rfl)]
    exact hnodupT
  have h5 : goFindLast (fun a => a.id == aid)
      (sl ({ t with
        payments := some (updateFirst (fun q => q.id == pid)
          (fun q => { q with status := statusFail }) (sl t.payments)),
        accounts := some (updateFirst (fun a => a.id == P.accountID)
          (fun a => { a with balance := a.balance + P.amount }) (sl t.accounts)) }
      : Service).accounts)
      = some { A with balance := A.balance + P.amount } := by
    show goFindLast (fun a => a.id == aid)
      (updateFirst (fun a => a.id == P.accountID)
        (fun a => { a with balance := a.balance + P.amount }) (sl t.accounts)) = _
    rw [hP]
    rw [updateFirst_eq_updateLast_of_nodup Account.id aid
      (fun a => { a with balance := a.balance + P.amount }) hnodupT]
    rw [@goFindLast_updateLast Account (fun a => a.id == aid)
      (fun a => { a with balance := a.balance + P.amount })
      (sl t.accounts) (fun a => rfl)]
    rw [hfL]
    rfl
  refine ⟨_, hrej, h1, ?_, h4, h5, ?_⟩
  · unfold statusOf
    rw [h1]
    rfl
  · unfold balanceOf
    rw [h5]
    rfl

/-- C2 amended: after a successful Pay, Reject on the new payment
identifier sets its status to FAIL and credits the amount back,
restoring the balance exactly to its pre-Pay value, and a second
Reject of the same identifier succeeds again and credits the amount
a second time, all under the wrap-aware int64 semantics, provided the
pre-Pay balance plus the amount does not exceed MaxInt64; without
that bound the second credit overflows int64 and wraps. The remaining
hypotheses say account identifiers are distinct and the generated
payment identifier is fresh, the uniqueness the uuid supply provides. -/
theorem c2_reject_restores_and_double_credits
    (s : Service) (aid : Int) (amount : Money) (cat : Str)
    (p : Payment) (s1 : Service)
    (hnodup : ((sl s.accounts).map Account.id).Nodup)
    (hfresh : ∀ q ∈ sl s.payments, q.id ≠ genUUID s.uuidSeed)
    (hrange : ∀ acc, goFindLast (fun a => a.id == aid) (sl s.accounts) = some acc →
      acc.balance + amount ≤ maxInt64)
    (hpay : goPayW s aid amount cat = (.ok p, s1)) :
    ∃ b s2 s3,
      balanceOf s aid = some b ∧
      goRejectW s1 p.id = (.ok (), s2) ∧
      statusOf s2 p.id = some statusFail ∧
      balanceOf s2 aid = some b ∧
      goRejectW s2 p.id = (.ok (), s3) ∧
      balanceOf s3 aid = some (b + amount) := by
  have hm0 : minInt64 ≤ 0 := by decide
  have hpw : goPayW s aid amount cat = goPay s aid amount cat := by
    apply goPayW_eq
    intro a2 hf hneg hlt
    have hr : @LE.le Int _ (a2.balance + amount) maxInt64 := hrange a2 hf
    have hb : @LT.lt Int _ 0 amount := not_le.mp hneg
    have hl : @LE.le Int _ amount a2.balance := not_lt.mp hlt
    simp only [inRange64, Bool.and_eq_true, decide_eq_true_eq]
    omega
  rw [hpw] at hpay
  obtain ⟨acc, hpos, hfind, hle, hp, hs1⟩ := goPay_ok_elim hpay
  have hrb : @LE.le Int _ (acc.balance + amount) maxInt64 := hrange acc hfind
  have hpos2 : @LT.lt Int _ 0 amount := hpos
  have hle2 : @LE.le Int _ amount acc.balance := hle
  have hbal0 : balanceOf s aid = some acc.balance := by
    unfold balanceOf
    rw [hfind]
    rfl
  have hfresh2 : genUUID s.uuidSeed ∉ (sl s.payments).map Payment.id := by
    intro hmem
    obtain ⟨q, hq, hid⟩ := List.mem_map.mp hmem
    exact hfresh q hq hid
  have hpid : p.id = genUUID s.uuidSeed := by rw [hp]
  have hpacc : p.accountID = aid := by rw [hp]
  have hpamt : p.amount = amount := by rw [hp]
  have hs1p : sl s1.payments = sl s.payments ++ [p] := by
    rw [hs1]
    rfl
  have hs1a : sl s1.accounts = updateLast (fun a => a.id == aid)
      (fun a => { a with balance := a.balance - amount }) (sl s.accounts) := by
    rw [hs1]
    rfl
  have hfp1 : goFindPaymentByID s1 p.id = some p := by
    unfold goFindPaymentByID
    rw [hs1p, hpid, List.find?_append, find?_key_none Payment.id _ hfresh2]
    simp [List.find?, hpid]
  have hnodup1 : ((sl s1.accounts).map Account.id).Nodup := by
    rw [hs1a, @map_key_updateLast Account Int Account.id
      (fun a => a.id == aid)
      (fun a => { a with balance := a.balance - amount })
      (sl s.accounts) (fun a => rfl)]
    exact hnodup
  have hfL1 : goFindLast (fun a => a.id == aid) (sl s1.accounts)
      = some { acc with balance := acc.balance - amount } := by
    rw [hs1a, @goFindLast_updateLast Account (fun a => a.id == aid)
      (fun a => { a with balance := a.balance - amount })
      (sl s.accounts) (fun a => rfl), hfind]
    rfl
  have hbr1 : goRejectW s1 p.id = goReject s1 p.id := by
    apply goRejectW_eq
    intro q a hq ha
    rw [hfp1] at hq
    injection hq with hq
    subst hq
    rw [hpacc] at ha
    have hfa1 : goFindAccountByID s1 aid
        = goFindLast (fun x => x.id == aid) (sl s1.accounts) := by
      unfold goFindAccountByID
      rw [find?_eq_goFindLast_of_nodup Account.id aid hnodup1]
    rw [hfa1, hfL1] at ha
    injection ha with ha
    subst ha
    show inRange64 (acc.balance - amount + p.amount) = true
    rw [hpamt]
    simp only [inRange64, Bool.and_eq_true, decide_eq_true_eq]
    omega
  obtain ⟨t2, hrej1, hfp2, hst2, hnodup2, hfL2, hbal2⟩ :=
    goReject_round s1 p.id p { acc with balance := acc.balance - amount } aid
      hfp1 hpacc hnodup1 hfL1
  have hbr2 : goRejectW t2 p.id = goReject t2 p.id := by
    apply goRejectW_eq
    intro q a hq ha
    rw [hfp2] at hq
    injection hq with hq
    subst hq
    have haid : ({ p with status := statusFail } : Payment).accountID = aid := hpacc
    rw [haid] at ha
    have hfa2 : goFindAccountByID t2 aid
        = goFindLast (fun x => x.id == aid) (sl t2.accounts) := by
      unfold goFindAccountByID
      rw [find?_eq_goFindLast_of_nodup Account.id aid hnodup2]
    rw [hfa2, hfL2] at ha
    injection ha with ha
    subst ha
    show inRange64 (acc.balance - amount + p.amount + p.amount) = true
    rw [hpamt]
    simp only [inRange64, Bool.and_eq_true, decide_eq_true_eq]
    omega
  obtain ⟨t3, hrej2, -, -, -, -, hbal3⟩ :=
    goReject_round t2 p.id { p with status := statusFail }
      { { acc with balance := acc.balance - amount } with
        balance := ({ acc with balance := acc.balance - amount } : Account).balance
          + p.amount } aid
      hfp2 hpacc hnodup2 hfL2
  refine ⟨acc.balance, t2, t3, hbal0, ?_, hst2, ?_, ?_, ?_⟩
  · rw [hbr1]
    exact hrej1
  · rw [hbal2]
    show some (acc.balance - amount + p.amount) = some acc.balance
    rw [hpamt]
    congr 1
    ring
  · rw [hbr2]
    exact hrej2
  · rw [hbal3]
    show some (acc.balance - amount + p.amount + p.amount)
      = some (acc.balance + amount)
    rw [hpamt]
    congr 1
    ring

/-- Witness for the amended C2: on a store with one account of balance 10,
paying 5 under the wrap-aware semantics and rejecting twice yields
balances 10 then 15, the no-overflow bound holding at 10 + 5. -/
theorem c2_reject_restores_and_double_credits_witness :
    ∃ b s2 s3,
      balanceOf svcBal10 1 = some b ∧
      goRejectW (goPayW svcBal10 1 5 catFood).2 (genUUID 0) = (.ok (), s2) ∧
      statusOf s2 (genUUID 0) = some statusFail ∧
      balanceOf s2 1 = some b ∧
      goRejectW s2 (genUUID 0) = (.ok (), s3) ∧
      balanceOf s3 1 = some (b + 5) := by
  refine c2_reject_restores_and_double_credits svcBal10 1 5 catFood
    { id := genUUID 0, accountID := 1, amount := 5, category := catFood,
      status := statusInProgress }
    (goPayW svcBal10 1 5 catFood).2 (by decide) (by decide) ?_ (by rfl)
  intro acc h
  have h2 : some ({ id := 1, phone := phoneP, balance := 10 } : Account)
      = some acc := h
  injection h2 with h2
  rw [← h2]
  decide

/-- Counterexample to C2 as stated: on an account whose balance is
MaxInt64, Pay of 1 then two Rejects both succeed, but the second
credit overflows int64 and wraps the balance to MinInt64 instead of
crediting the amount a second time. -/
theorem c2_second_credit_overflows :
    (goRejectW (goPayW svcMaxBal 1 1 catFood).2 (genUUID 0)).1 = .ok () ∧
    balanceOf (goRejectW (goPayW svcMaxBal 1 1 catFood).2 (genUUID 0)).2 1
      = some maxInt64 ∧
    (goRejectW (goRejectW (goPayW svcMaxBal 1 1 catFood).2
        (genUUID 0)).2 (genUUID 0)).1 = .ok () ∧
    balanceOf (goRejectW (goRejectW (goPayW svcMaxBal 1 1 catFood).2
        (genUUID 0)).2 (genUUID 0)).2 1
      = some minInt64 ∧
    minInt64 ≠ maxInt64 + 1 :=
  ⟨rfl, by decide, rfl, by decide, by decide⟩

theorem goFindLast_append_self {p : α → Bool} {x : α} (l : List α)
    (h : p x = true) : goFindLast p (l ++ [x]) = some x := by
  unfold goFindLast
  rw [List.reverse_append]
  show List.find? p (x :: l.reverse) = some x
  rw [@List.find?_cons_of_pos _ p x l.reverse h]

theorem updateLast_append_self {p : α → Bool} {f : α → α} {x : α} (l : List α)
    (h : p x = true) : updateLast p f (l ++ [x]) = l ++ [f x] := by
  unfold updateLast
  rw [List.reverse_append]
  show (updateFirst p f (x :: l.reverse)).reverse = _
  rw [updateFirst_cons_pos h, List.reverse_cons, List.reverse_reverse]

theorem goAtoiW_inRange (x : Str) : inRange64 (goAtoiW x) = true := by
  have hgw : goAtoiW x = if goAtoi x > maxInt64 then maxInt64
      else if goAtoi x < minInt64 then minInt64 else goAtoi x := rfl
  rw [hgw]
  by_cases h1 : goAtoi x > maxInt64
  · rw [if_pos h1]
    decide
  · rw [if_neg h1]
    by_cases h2 : goAtoi x < minInt64
    · rw [if_pos h2]
      decide
    · rw [if_neg h2]
      simp only [inRange64, Bool.and_eq_true, decide_eq_true_eq]
      exact ⟨not_lt.mp h2, not_lt.mp h1⟩

theorem goRegisterAccountW_preserves (s : Service) (ph : Str)
    (hbal : ∀ a ∈ sl s.accounts, 0 ≤ a.balance)
    (hamt : ∀ p ∈ sl s.payments, 0 < p.amount) :
    (∀ a ∈ sl (goRegisterAccountW s ph).2.accounts, 0 ≤ a.balance) ∧
    (∀ p ∈ sl (goRegisterAccountW s ph).2.payments, 0 < p.amount) := by
  by_cases hc : (sl s.accounts).any (fun a => a.phone == ph)
  · simp only [goRegisterAccountW, hc, if_true]
    exact ⟨hbal, hamt⟩
  · simp only [goRegisterAccountW, hc, Bool.false_eq_true, if_false]
    constructor
    · intro a ha
      rw [sl_some] at ha
      rcases List.mem_append.mp ha with h1 | h1
      · exact hbal a h1
      · rw [List.mem_singleton] at h1
        subst h1
        exact le_refl 0
    · intro p hp
      exact hamt p hp

theorem goRegisterAccountW_ok_elim {s : Service} {ph : Str} {acc : Account}
    {s1 : Service} (h : goRegisterAccountW s ph = (.ok acc, s1)) :
    acc.balance = 0 ∧ s1.accounts = some (sl s.accounts ++ [acc]) ∧
    s1.payments = s.payments := by
  by_cases hc : (sl s.accounts).any (fun a => a.phone == ph)
  · simp only [goRegisterAccountW, hc, if_true] at h
    exact absurd h (by simp)
  · simp only [goRegisterAccountW, hc, Bool.false_eq_true, if_false,
      Prod.mk.injEq, Except.ok.injEq] at h
    obtain ⟨ha, hs⟩ := h
    refine ⟨?_, ?_, ?_⟩
    · rw [← ha]
    · rw [← hs, ← ha]
    · rw [← hs]

theorem iffPieceW_preserves {s : Service} {piece : Str} {r : Option Err × Service}
    (h : iffPieceW s piece = some r)
    (hbal : ∀ a ∈ sl s.accounts, 0 ≤ a.balance)
    (hamt : ∀ p ∈ sl s.payments, 0 < p.amount) :
    (∀ a ∈ sl r.2.accounts, 0 ≤ a.balance) ∧
    (∀ p ∈ sl r.2.payments, 0 < p.amount) := by
  unfold iffPieceW at h
  cases hsp : splitCh ';' piece with
  | nil =>
    simp only [hsp] at h
    injection h with h2
    rw [← h2]
    exact ⟨hbal, hamt⟩
  | cons f0 t =>
    cases t with
    | nil =>
      simp only [hsp] at h
      injection h with h2
      rw [← h2]
      exact ⟨hbal, hamt⟩
    | cons f1 rest =>
      simp only [hsp] at h
      rcases hreg : goRegisterAccountW s f1 with ⟨rr, s1⟩
      have hp1 : (∀ a ∈ sl s1.accounts, 0 ≤ a.balance) ∧
          (∀ p ∈ sl s1.payments, 0 < p.amount) := by
        have := goRegisterAccountW_preserves s f1 hbal hamt
        rw [hreg] at this
        exact this
      cases rr with
      | error e =>
        simp only [hreg] at h
        injection h with h2
        rw [← h2]
        exact hp1
      | ok acc =>
        cases rest with
        | nil =>
          simp only [hreg] at h
          exact absurd h (by simp)
        | cons f2 t2 =>
          obtain ⟨hacc0, hs1acc, hs1pay⟩ := goRegisterAccountW_ok_elim hreg
          rcases hdep : goDepositW s1 acc.id (goAtoiW f2) with ⟨rd, s2⟩
          have hp2 : (∀ a ∈ sl s2.accounts, 0 ≤ a.balance) ∧
              (∀ p ∈ sl s2.payments, 0 < p.amount) := by
            by_cases hneg : goAtoiW f2 ≤ 0
            · simp only [goDepositW, if_pos hneg] at hdep
              injection hdep with hrd hs2
              rw [← hs2]
              exact hp1
            · have hfindW : goFindLast (fun a => a.id == acc.id) (sl s1.accounts)
                  = some acc := by
                rw [hs1acc, sl_some]
                exact goFindLast_append_self (sl s.accounts) (beq_self_eq_true acc.id)
              have hupd : updateLast (fun a => a.id == acc.id)
                  (fun a => { a with balance := wrap64 (a.balance + goAtoiW f2) })
                  (sl s1.accounts)
                  = sl s.accounts
                    ++ [{ acc with balance := wrap64 (acc.balance + goAtoiW f2) }] := by
                rw [hs1acc, sl_some]
                exact updateLast_append_self (sl s.accounts) (beq_self_eq_true acc.id)
              have hval : wrap64 (acc.balance + goAtoiW f2) = goAtoiW f2 := by
                rw [hacc0, zero_add]
                exact wrap64_eq_of_inRange (goAtoiW_inRange f2)
              simp only [goDepositW, if_neg hneg, hfindW] at hdep
              rw [hupd] at hdep
              injection hdep with hrd hs2
              rw [← hs2]
              refine ⟨?_, ?_⟩
              · show ∀ a ∈ sl (some (sl s.accounts
                    ++ [{ acc with balance := wrap64 (acc.balance + goAtoiW f2) }])),
                  0 ≤ a.balance
                intro a ha
                rw [sl_some] at ha
                rcases List.mem_append.mp ha with h1 | h1
                · exact hbal a h1
                · rw [List.mem_singleton] at h1
                  subst h1
                  show (0 : Int) ≤ wrap64 (acc.balance + goAtoiW f2)
                  rw [hval]
                  exact le_of_lt (not_le.mp hneg)
              · show ∀ p ∈ sl s1.payments, 0 < p.amount
                exact hp1.2
          cases rd with
          | error e =>
            simp only [hreg, hdep] at h
            injection h with h2
            rw [← h2]
            exact hp2
          | ok u =>
            simp only [hreg, hdep] at h
            injection h with h2
            rw [← h2]
            exact hp2

theorem iffPiecesW_preserves {s : Service} {ps : List Str}
    {r : Option Err × Service}
    (h : iffPiecesW s ps = some r)
    (hbal : ∀ a ∈ sl s.accounts, 0 ≤ a.balance)
    (hamt : ∀ p ∈ sl s.payments, 0 < p.amount) :
    (∀ a ∈ sl r.2.accounts, 0 ≤ a.balance) ∧
    (∀ p ∈ sl r.2.payments, 0 < p.amount) := by
  induction ps generalizing s with
  | nil =>
    simp only [iffPiecesW] at h
    injection h with h2
    rw [← h2]
    exact ⟨hbal, hamt⟩
  | cons p ps ih =>
    unfold iffPiecesW at h
    cases hp : iffPieceW s p with
    | none =>
      rw [hp] at h
      exact absurd h (by simp)
    | some r1 =>
      rw [hp] at h
      rcases r1 with ⟨e1, s1⟩
      have hp1 := iffPieceW_preserves hp hbal hamt
      cases e1 with
      | none =>
        simp at h
        exact ih h hp1.1 hp1.2
      | some e =>
        simp at h
        rw [← h]
        exact hp1

theorem reachW_inv {s : Service} (h : ReachW s) :
    (∀ a ∈ sl s.accounts, 0 ≤ a.balance) ∧
    (∀ p ∈ sl s.payments, 0 < p.amount) := by
  induction h with
  | init =>
    exact ⟨by intro a ha; exact absurd ha (by simp [zeroService, sl]),
      by intro p hp; exact absurd hp (by simp [zeroService, sl])⟩
  | step hr hstep ih =>
    cases hstep with
    | core op hop =>
      rw [coreStepW_eq _ op hop]
      exact coreStep_preserves _ op ih.1 ih.2
    | importFile content e s2p himp => exact iffPiecesW_preserves himp ih.1 ih.2

/-- C4 amended: every account balance is nonnegative in every store
reachable from the empty store under the wrap-aware int64 semantics
by ledger-store operations whose balance arithmetic stays in range
and by ImportFromFile on arbitrary file contents, whose clamped
parsed amounts are deposited into freshly registered zero-balance
accounts and cannot overflow; Import of a dump directory is excluded,
because it copies parsed balances into accounts unchecked, and
out-of-range ledger arithmetic is excluded, because an int64 credit
past MaxInt64 wraps negative. -/
theorem c4_balances_nonneg_without_import (s : Service) (h : ReachW s) :
    ∀ a ∈ sl s.accounts, 0 ≤ a.balance :=
  (reachW_inv h).1

/-- Witness for the amended C4: the store reached by an in-range register
and deposit holds the account at balance 10, which is nonnegative. -/
theorem c4_balances_nonneg_without_import_witness :
    0 ≤ ({ id := 1, phone := phoneP, balance := 10 } : Account).balance :=
  c4_balances_nonneg_without_import
    (coreStepW (coreStepW zeroService (CoreOp.register phoneP))
      (CoreOp.deposit 1 10))
    (ReachW.step (ReachW.step ReachW.init
      (StepNDW.core zeroService (CoreOp.register phoneP) (by decide)))
      (StepNDW.core (coreStepW zeroService (CoreOp.register phoneP))
        (CoreOp.deposit 1 10) (by decide)))
    { id := 1, phone := phoneP, balance := 10 } (by decide)

end WalletSpec
